import Mathlib

/-!
Verification of the genetic trade-up search core of Skins-Trading-Tracker.

Shallow embedding conventions:
* Python floats are modelled as exact rationals (`ℚ`).
* Python dicts are modelled as lookup functions into `Option`, or as
  association lists when insertion order matters (`source_counts`).
* Fallible Python code (KeyError, IndexError, ZeroDivisionError, ValueError,
  TypeError) is modelled in the `Except PyErr` monad (or `Option` where only
  success matters).
* Randomness (`random.random`, `random.randint`, `random.choice`,
  `random.sample`) is modelled by explicit oracle streams passed as arguments:
  `random()` becomes a rational coin compared against 1/2 etc., `randint(a,b)`
  becomes `a + r % (b - a + 1)` for an oracle value `r` (failing when the
  range is empty, as `randint` raises `ValueError`), and `choice(l)` becomes
  indexing by `r % l.length` (failing on an empty list).
-/

namespace STT

/-- Python exception kinds that the embedded code can raise. -/
inductive PyErr where
  | keyError
  | indexError
  | zeroDivisionError
  | valueError
  | typeError
deriving DecidableEq

/-- A contract entry: the dicts with keys `id`, `float`, `price`
(`genetic_algo` passes these around as `input_items` elements). -/
structure Entry where
  id : String
  float : ℚ
  price : ℚ
deriving DecidableEq

/-- An item of the catalog (the fields of `ITEMS[item_id]` that the genetic
core reads).  `sources` is the list of source ids the item belongs to. -/
structure Item where
  id : String
  price : ℚ
  offers : ℕ
  real_rarity : String
  stattrak : Bool
  min_float : ℚ
  max_float : ℚ
  real_min_float : ℚ
  real_max_float : ℚ
  sources : List String
deriving DecidableEq

instance {ε α : Type _} [DecidableEq ε] [DecidableEq α] : DecidableEq (Except ε α) := fun a b =>
  match a, b with
  | .error x, .error y =>
    if h : x = y then .isTrue (by rw [h])
    else .isFalse (fun hc => h (by injection hc))
  | .ok x, .ok y =>
    if h : x = y then .isTrue (by rw [h])
    else .isFalse (fun hc => h (by injection hc))
  | .error _, .ok _ => .isFalse (fun hc => Except.noConfusion hc)
  | .ok _, .error _ => .isFalse (fun hc => Except.noConfusion hc)

theorem except_error_bind {ε α β : Type _} (e : ε) (f : α → Except ε β) :
    (Except.error e >>= f) = Except.error e := rfl

theorem except_ok_bind {ε α β : Type _} (a : α) (f : α → Except ε β) :
    (Except.ok a >>= f) = f a := rfl

theorem except_map_error {ε α β : Type _} (f : α → β) (e : ε) :
    Except.map f (Except.error e : Except ε α) = Except.error e := rfl

theorem except_map_ok {ε α β : Type _} (f : α → β) (a : α) :
    Except.map f (Except.ok a : Except ε α) = Except.ok (f a) := rfl

/-- The `ITEMS` dict: item id to item, `none` meaning a `KeyError` lookup. -/
def Items := String → Option Item

/-- One outcome dict stored by `precompute_outcomes`
(`{'item_id': ..., 'final_float': ..., 'price': ...}`). -/
structure Outcome where
  item_id : String
  final_float : ℚ
  price : ℚ
deriving DecidableEq

/-- A stored value `[mean_price] + valid_outcomes` of `PRECOMPUTED_OUTCOMES`:
index 0 is the mean price, the rest are the outcomes. -/
structure OutcomeBucket where
  meanPrice : ℚ
  outcomes : List Outcome
deriving DecidableEq

/-- The nested dict `PRECOMPUTED_OUTCOMES[rarity][stattrak][source_id][ff]`,
as a partial lookup function; `none` models a missing key (`KeyError`). -/
def Table := String → Bool → String → ℤ → Option OutcomeBucket

/-! ### tradeup_calc.py -/

/-- `item.get('max_float', 1.0) or 1.0` (tradeup_calc.py:36): the Python `or`
falls through to `1.0` when the stored value is falsy (`0.0`). -/
def item_max_eff (it : Item) : ℚ := if it.max_float = 0 then 1 else it.max_float

/-- `item.get('min_float', 0.0) or 0.0` (tradeup_calc.py:35): the `or` default
`0.0` coincides with the falsy value, so this is just the stored value. -/
def item_min_eff (it : Item) : ℚ := it.min_float

/-- `source_counts[source_id] = source_counts.get(source_id, 0) + 1`
(tradeup_calc.py:49) on an insertion-ordered dict modelled as an
association list. -/
def bump_count (cs : List (String × ℕ)) (sid : String) : List (String × ℕ) :=
  if cs.any (fun p => p.1 = sid) then
    cs.map (fun p => if p.1 = sid then (p.1, p.2 + 1) else p)
  else cs ++ [(sid, 1)]

/-- The per-entry loop of `calculate_contract_roi_fast` (tradeup_calc.py:31-49):
accumulates the normalized-float sum, the total input price and the
source-occurrence counts, raising `KeyError` on a missing item id. -/
def entry_scan (items : Items) :
    List Entry → ℚ → ℚ → List (String × ℕ) →
    Except PyErr (ℚ × ℚ × List (String × ℕ))
  | [], s, t, counts => .ok (s, t, counts)
  | e :: rest, s, t, counts =>
    match items e.id with
    | none => .error .keyError
    | some item =>
      let item_min := item_min_eff item
      let item_max := item_max_eff item
      let range_val := item_max - item_min
      let normalized := if 0 < range_val then (e.float - item_min) / range_val else 0
      -- `entry.get('price', 0.0) or 0.0`: for a rational price this is the price itself
      entry_scan items rest (s + normalized) (t + e.price)
        (item.sources.foldl bump_count counts)

/-- `min(int(math.ceil(avg_normalized_float * 100) / 1), 99)`
(tradeup_calc.py:55); `int(x / 1)` is the identity on the integer `ceil`. -/
def float_factor_int (avg : ℚ) : ℤ := min ⌈avg * 100⌉ 99

/-- The expected-value loop of `calculate_contract_roi_fast`
(tradeup_calc.py:60-64): iterates `source_counts` in insertion order, raising
`KeyError` when the precomputed table has no entry for the key. -/
def expected_value_scan (table : Table) (r : String) (st : Bool) (ff : ℤ) (k : ℕ) :
    List (String × ℕ) → ℚ → Except PyErr ℚ
  | [], acc => .ok acc
  | (sid, count) :: rest, acc =>
    match table r st sid ff with
    | none => .error .keyError
    | some bucket =>
      expected_value_scan table r st ff k rest (acc + bucket.meanPrice * ((count : ℚ) / (k : ℚ)))

/-- `calculate_contract_roi_fast` (tradeup_calc.py:5-69).  `input_items[0]` on
an empty contract raises `IndexError`; the final division raises
`ZeroDivisionError` when the total input price is zero. -/
def calculate_contract_roi_fast (input_items : List Entry) (items : Items)
    (table : Table) : Except PyErr ℚ :=
  match input_items with
  | [] => .error .indexError
  | e0 :: _ =>
    match items e0.id with
    | none => .error .keyError
    | some first_item => do
      let (sum_normalized, total_input_price, source_counts) ←
        entry_scan items input_items 0 0 []
      let avg_normalized_float := sum_normalized / (input_items.length : ℚ)
      let ff := float_factor_int avg_normalized_float
      let expected_value ← expected_value_scan table first_item.real_rarity
        first_item.stattrak ff input_items.length source_counts 0
      if total_input_price = 0 then .error .zeroDivisionError
      else .ok ((expected_value - total_input_price) / total_input_price * 100)

/-! ### preload.py -/

/-- `MINIMUM_OFFERS = 50` (preload.py:15). -/
def MINIMUM_OFFERS : ℕ := 50

/-- `RARITY_ORDER` (preload.py:17-20). -/
def RARITY_ORDER : List String :=
  ["Consumer Grade", "Industrial Grade", "Mil-Spec Grade",
   "Restricted", "Classified", "Covert", "Gold"]

/-- Round-half-even on rationals, the rounding mode of Python `round`. -/
def round_half_even (q : ℚ) : ℤ :=
  let f := ⌊q⌋
  if q - f < 1 / 2 then f
  else if 1 / 2 < q - f then f + 1
  else if f % 2 = 0 then f else f + 1

/-- Python `round(x, 3)`. -/
def py_round3 (q : ℚ) : ℚ := (round_half_even (q * 1000) : ℚ) / 1000

/-- `generate_float_values` (preload.py:23-30): the three float values at 25%,
50% and 80% of the range, each rounded to 3 decimals.  Note these are three
bare floats, not (float, price-multiplier) pairs. -/
def generate_float_values (real_min real_max : ℚ) : ℚ × ℚ × ℚ :=
  let float_range := real_max - real_min
  (py_round3 (real_min + float_range * (25 / 100)),
   py_round3 (real_min + float_range * (50 / 100)),
   py_round3 (real_min + float_range * (80 / 100)))

/-- The reverse mapping `SOURCE_OUTCOMES[source_id]` built by `load_sources`:
rarity → stattrak → item ids.  The inner stattrak dict is total because
`load_sources` always creates both keys (`{True: [], False: []}`). -/
def SourceMapping := String → Option (Bool → List String)

/-- `precompute_outcomes` (preload.py:95-187), as the list of entries stored
into `PRECOMPUTED_OUTCOMES`, one per `(input_rarity, stattrak, source_id,
ff_int)` key that receives a `[mean_price] + valid_outcomes` value.
`item_of` is the `ITEMS` dict, total because the Python code would have
crashed (and stored nothing) on a missing id (preload.py:146); `so` is
`SOURCE_OUTCOMES` as an association list (the Python `relevant_sources` set is
iterated in some unspecified order; only membership in the stored table
matters below).  Per output item the final float uses the nominal
`min_float`/`max_float` range (with the `or`-defaults of preload.py:156-157)
and the outcome is kept only when the final float lies inside
`real_min_float..real_max_float`; its price is zeroed unless
`offers > MINIMUM_OFFERS` (preload.py:169). -/
def precompute_outcomes (item_of : String → Item)
    (so : List (String × SourceMapping)) :
    List (String × Bool × String × ℕ × OutcomeBucket) :=
  (List.range (RARITY_ORDER.length - 1)).flatMap fun rarity_idx =>
    let input_rarity := RARITY_ORDER.getD rarity_idx ""
    let output_rarity := RARITY_ORDER.getD (rarity_idx + 1) ""
    [false, true].flatMap fun stattrak =>
      let relevant_sources := so.filter fun p =>
        match p.2 input_rarity with
        | some m => !(m stattrak).isEmpty
        | none => false
      relevant_sources.flatMap fun p =>
        let source_id := p.1
        let output_item_ids :=
          match p.2 output_rarity with
          | some m => m stattrak
          | none => []
        if output_item_ids.isEmpty then []
        else
          let output_items := output_item_ids.map item_of
          (List.range 100).flatMap fun ff_int =>
            let float_factor : ℚ := (ff_int : ℚ) / 100
            let valid_outcomes := output_items.filterMap fun out_item =>
              let item_min := item_min_eff out_item
              let item_max := item_max_eff out_item
              let final_float := float_factor * (item_max - item_min) + item_min
              let real_min := out_item.real_min_float
              let real_max := out_item.real_max_float
              if real_min ≤ final_float ∧ final_float ≤ real_max then
                some ⟨out_item.id, final_float,
                  if MINIMUM_OFFERS < out_item.offers then out_item.price else 0⟩
              else none
            if valid_outcomes.isEmpty then []
            else
              [(input_rarity, stattrak, source_id, ff_int,
                ⟨(valid_outcomes.map Outcome.price).sum / (valid_outcomes.length : ℚ),
                 valid_outcomes⟩)]

/-- The per-source validity test inside `load_input_items`
(preload.py:222-230): the source's outcome map lists the item under the input
rarity/stattrak and has at least one item of the next rarity tier. -/
def has_next_tier_source (so_map : String → Option SourceMapping)
    (rarity next_rarity : String) (stattrak : Bool) (item_id source_id : String) :
    Bool :=
  match so_map source_id with
  | none => false
  | some m =>
    match m rarity with
    | none => false
    | some by_st =>
      decide (item_id ∈ by_st stattrak) &&
        (match m next_rarity with
         | some bn => !(bn stattrak).isEmpty
         | none => false)

/-- `load_input_items` (preload.py:190-258).  `item_of` is the `ITEMS` dict,
total for the same reason as in `precompute_outcomes` (preload.py:212 would
raise on a missing id); `items_by_rarity` is `ITEMS_BY_RARITY` (the inner
stattrak dict is total by construction); `sources_keys` is the key list of
`SOURCES` in iteration order; `so_map` is `SOURCE_OUTCOMES`. -/
def load_input_items (item_of : String → Item)
    (items_by_rarity : String → Option (Bool → List String))
    (sources_keys : List String) (so_map : String → Option SourceMapping)
    (rarity : String) (stattrak : Bool) : List Entry :=
  match items_by_rarity rarity with
  | none => []
  | some by_st =>
    if rarity ∈ RARITY_ORDER then
      if RARITY_ORDER.length ≤ RARITY_ORDER.indexOf rarity + 1 then []
      else
        (by_st stattrak).flatMap fun item_id =>
          -- `item.get('price', 0.0) or 0.0` / `item.get('offers', 0) or 0`
          if (item_of item_id).price ≤ 0 ∨ (item_of item_id).offers ≤ MINIMUM_OFFERS
          then []
          else
            if sources_keys.any (has_next_tier_source so_map rarity
                (RARITY_ORDER.getD (RARITY_ORDER.indexOf rarity + 1) "") stattrak
                item_id) then
              [⟨item_id, (generate_float_values (item_of item_id).real_min_float
                  (item_of item_id).real_max_float).1, (item_of item_id).price⟩,
               ⟨item_id, (generate_float_values (item_of item_id).real_min_float
                  (item_of item_id).real_max_float).2.1, (item_of item_id).price⟩,
               ⟨item_id, (generate_float_values (item_of item_id).real_min_float
                  (item_of item_id).real_max_float).2.2, (item_of item_id).price⟩]
            else []
    else []

/-! ### genetic.py: population operations -/

/-- The lexicographic order on `(item_id, float)` pairs that Python `sorted`
uses on 2-tuples. -/
def pair_le (a b : String × ℚ) : Prop :=
  a.1 < b.1 ∨ (a.1 = b.1 ∧ a.2 ≤ b.2)

instance : DecidableRel pair_le := fun a b => by
  unfold pair_le; infer_instance

/-- `normalize_contract` (genetic.py:200-204): the sorted tuple of
`(item['id'], item['float'])` pairs, an order-independent signature. -/
def normalize_contract (contract : List Entry) : List (String × ℚ) :=
  (contract.map fun e => (e.id, e.float)).insertionSort pair_le

/-- The loop of `remove_duplicate_contracts` (genetic.py:207-218) with the
`seen` set carried as a list of signatures. -/
def remove_duplicates_aux : List (List Entry) → List (List (String × ℚ)) → List (List Entry)
  | [], _ => []
  | c :: rest, seen =>
    let sig := normalize_contract c
    if sig ∈ seen then remove_duplicates_aux rest seen
    else c :: remove_duplicates_aux rest (sig :: seen)

/-- `remove_duplicate_contracts` (genetic.py:207-218): keep the first
occurrence of each signature, preserving order. -/
def remove_duplicate_contracts (contracts : List (List Entry)) : List (List Entry) :=
  remove_duplicates_aux contracts []

/-- `random.choice(l)`: uniform indexing driven by the oracle value `pick`;
`choice` of an empty list raises `IndexError`. -/
def py_choice (pick : ℕ) (l : List α) : Except PyErr α :=
  match l with
  | [] => .error .indexError
  | x :: _ => .ok (l.getD (pick % l.length) x)

/-- `random.sample(l, k)`: draw `k` elements without replacement, the `t`-th
draw indexed by the oracle `picks t`; raises `ValueError` when `k` exceeds
the population size. -/
def sample_wr (picks : ℕ → ℕ) : ℕ → ℕ → List α → Except PyErr (List α)
  | 0, _, _ => .ok []
  | _ + 1, _, [] => .error .valueError
  | k + 1, t, l@(x :: _) =>
    let i := picks t % l.length
    (sample_wr picks k (t + 1) (l.eraseIdx i)).map fun rest => l.getD i x :: rest

/-- `GeneticAlgorithm.create_random_contract` (genetic.py:89-90):
`sample(input_items, k=self.num_items)`. -/
def create_random_contract (picks : ℕ → ℕ) (input_items : List Entry)
    (num_items : ℕ) : Except PyErr (List Entry) :=
  sample_wr picks num_items 0 input_items

/-- `GeneticAlgorithm.crossover` (genetic.py:123-130):
`randint(1, K//2 - 1)` items sampled from the first parent, the remaining
`K - n` from the second.  `randint` raises `ValueError` when `K//2 - 1 < 1`. -/
def crossover (n1_r : ℕ) (picks1 picks2 : ℕ → ℕ) (num_items : ℕ)
    (parent1 parent2 : List Entry) : Except PyErr (List Entry) :=
  if num_items / 2 ≤ 1 then .error .valueError
  else do
    let num_from_parent1 := 1 + n1_r % (num_items / 2 - 1)
    let num_from_parent2 := num_items - num_from_parent1
    let items_from_parent1 ← sample_wr picks1 num_from_parent1 0 parent1
    let items_from_parent2 ← sample_wr picks2 num_from_parent2 0 parent2
    pure (items_from_parent1 ++ items_from_parent2)

/-- The oracle draws consumed by one `GeneticAlgorithm.mutate` call. -/
structure MutateRand where
  coin1 : ℚ
  num_r : ℕ
  repl_pos : ℕ → ℕ
  repl_coin : ℕ → ℚ
  repl_pool_pick : ℕ → ℕ
  repl_self_pick : ℕ → ℕ
  coin2 : ℚ
  pos2 : ℕ
  quant_pick : ℕ

/-- The replacement loop of mutation 1 (genetic.py:138-140): each step picks a
position `randint(0, num_items - 1)` (raising `ValueError` when
`num_items = 0`) and overwrites it with a pool pick or an element of the
current (partially mutated) contract; writing past the end of the list raises
`IndexError`. -/
def mutate_replace_loop (rand : MutateRand) (input_items : List Entry)
    (num_items : ℕ) : ℕ → ℕ → List Entry → Except PyErr (List Entry)
  | 0, _, mutated => .ok mutated
  | n + 1, i, mutated =>
    if num_items = 0 then .error .valueError
    else
      let pos := rand.repl_pos i % num_items
      do
        let v ← if rand.repl_coin i < 1 / 2 then
            py_choice (rand.repl_pool_pick i) input_items
          else py_choice (rand.repl_self_pick i) mutated
        if pos < mutated.length then
          mutate_replace_loop rand input_items num_items n (i + 1) (mutated.set pos v)
        else .error .indexError

/-- Mutation 1 of `GeneticAlgorithm.mutate` (genetic.py:136-140): with a 50%
coin, replace `randint(1, len(contract)//3)` entries (raising `ValueError`
when `len(contract)//3 = 0`). -/
def mutate_replacement_phase (rand : MutateRand) (input_items : List Entry)
    (num_items : ℕ) (contract : List Entry) : Except PyErr (List Entry) :=
  if rand.coin1 < 1 / 2 then
    if contract.length / 3 = 0 then .error .valueError
    else
      let num_to_replace := 1 + rand.num_r % (contract.length / 3)
      mutate_replace_loop rand input_items num_items num_to_replace 0 contract
  else pure contract

/-- `GeneticAlgorithm.mutate` (genetic.py:132-161).  Mutation 1 (50% coin):
the replacement phase above.  Mutation 2 (50% coin): pick a position and
re-roll its float — but `generate_float_values` returns three bare floats
(preload.py:23-30), so `new_float, price_mult = choice(float_price_tuples)`
(genetic.py:152) unpacks a single float and raises `TypeError`. -/
def mutate (rand : MutateRand) (items : Items) (input_items : List Entry)
    (num_items : ℕ) (contract : List Entry) : Except PyErr (List Entry) := do
  let m1 ← mutate_replacement_phase rand input_items num_items contract
  if rand.coin2 < 1 / 2 then
    if num_items = 0 then .error .valueError
    else
      let pos := rand.pos2 % num_items
      match m1.get? pos with
      | none => .error .indexError
      | some entry =>
        match items entry.id with
        | none => .error .keyError
        | some item_data =>
          let float_price_tuples :=
            generate_float_values item_data.real_min_float item_data.real_max_float
          -- `new_float, price_mult = choice(float_price_tuples)`: the chosen
          -- element is a single float, so tuple unpacking raises `TypeError`.
          let _ := float_price_tuples
          .error .typeError
  else pure m1

/-- The attempt loop of `GeneticAlgorithm.initialize_population`
(genetic.py:102-110), fuelled by `max_attempts = population_size * 10`;
the oracle `r t` drives the `t`-th `create_random_contract` call. -/
def init_pop_attempts (r : ℕ → ℕ → ℕ) (input_items : List Entry)
    (num_items population_size : ℕ) :
    ℕ → ℕ → List (List Entry) → List (List (String × ℚ)) →
    Except PyErr (List (List Entry) × ℕ)
  | 0, t, population, _ => .ok (population, t)
  | fuel + 1, t, population, seen =>
    if population.length < population_size then do
      let contract ← create_random_contract (r t) input_items num_items
      let sig := normalize_contract contract
      if sig ∈ seen then
        init_pop_attempts r input_items num_items population_size fuel (t + 1)
          population seen
      else
        init_pop_attempts r input_items num_items population_size fuel (t + 1)
          (population ++ [contract]) (sig :: seen)
    else .ok (population, t)

/-- The fill loop of `GeneticAlgorithm.initialize_population`
(genetic.py:113-114): pad with possibly-duplicate samples until the requested
size is reached (at most `population_size` iterations are needed, used here
as fuel). -/
def init_pop_fill (r : ℕ → ℕ → ℕ) (input_items : List Entry)
    (num_items population_size : ℕ) :
    ℕ → ℕ → List (List Entry) → Except PyErr (List (List Entry))
  | 0, _, population => .ok population
  | fuel + 1, t, population =>
    if population.length < population_size then do
      let contract ← create_random_contract (r t) input_items num_items
      init_pop_fill r input_items num_items population_size fuel (t + 1)
        (population ++ [contract])
    else .ok population

/-- `GeneticAlgorithm.initialize_population` (genetic.py:95-116). -/
def initialize_population (r : ℕ → ℕ → ℕ) (input_items : List Entry)
    (num_items population_size : ℕ) : Except PyErr (List (List Entry)) := do
  let (population, t) ←
    init_pop_attempts r input_items num_items population_size
      (population_size * 10) 0 [] []
  init_pop_fill r input_items num_items population_size population_size t population

/-- The descending-by-fitness order used by `select_top_contracts`
(`sort(key=lambda x: x[1], reverse=True)`, a stable sort). -/
def fitness_ge (a b : List Entry × ℚ) : Prop := b.2 ≤ a.2

instance : DecidableRel fitness_ge := fun a b => by
  unfold fitness_ge; infer_instance

/-- `GeneticAlgorithm.select_top_contracts` (genetic.py:118-121). -/
def select_top_contracts (population : List (List Entry)) (fitness_scores : List ℚ)
    (top_n : ℕ) : List (List Entry) :=
  (((population.zip fitness_scores).insertionSort fitness_ge).take top_n).map Prod.fst

/-! ### genetic.py: parallel evaluation -/

/-- `evaluate_population_worker` (genetic.py:164-173): evaluate a batch,
tagging each score with its original population index
`batch_start_idx + i`. -/
def evaluate_population_worker (items : Items) (table : Table) :
    List (List Entry) → ℕ → Except PyErr (List (ℕ × ℚ))
  | [], _ => .ok []
  | contract :: rest, batch_start_idx => do
    let roi ← calculate_contract_roi_fast contract items table
    let results ← evaluate_population_worker items table rest (batch_start_idx + 1)
    pure ((batch_start_idx, roi) :: results)

/-- Python slice `l[start:stop]` for nonnegative bounds. -/
def py_slice (l : List α) (start stop : ℕ) : List α := (l.take stop).drop start

/-- The ascending-index order used to re-sort the merged worker results
(`all_results.sort(key=lambda x: x[0])`). -/
def index_le (a b : ℕ × ℚ) : Prop := a.1 ≤ b.1

instance : DecidableRel index_le := fun a b => by
  unfold index_le; infer_instance

/-- `evaluate_population_parallel` (genetic.py:176-197): contiguous batches of
size `population_size // num_processes` (the last batch absorbing the
remainder), evaluated per worker, merged, re-sorted by original index, and
stripped to the scores.  `num_processes = 0` would make the batch-size
division raise. -/
def evaluate_population_parallel (population : List (List Entry)) (items : Items)
    (table : Table) (num_processes : ℕ) : Except PyErr (List ℚ) :=
  if num_processes = 0 then .error .zeroDivisionError
  else do
    let batch_size := population.length / num_processes
    let work_items := (List.range num_processes).map fun i =>
      let start_idx := i * batch_size
      let end_idx :=
        if i < num_processes - 1 then start_idx + batch_size else population.length
      (py_slice population start_idx end_idx, start_idx)
    let results ← work_items.mapM fun w =>
      evaluate_population_worker items table w.1 w.2
    let all_results := results.flatten
    let sorted := all_results.insertionSort index_le
    pure (sorted.map Prod.snd)

/-- The sequential reference evaluation the spec's ordering guarantee refers
to: `fitness[i]` is `calculate_contract_roi_fast(population[i])`, mapped in
order. -/
def evaluate_population_sequential (population : List (List Entry)) (items : Items)
    (table : Table) : Except PyErr (List ℚ) :=
  population.mapM fun contract => calculate_contract_roi_fast contract items table

/-! ### genetic_island.py -/

/-- Python `int(x)` on a rational: truncation toward zero. -/
def py_int (q : ℚ) : ℤ := if 0 ≤ q then ⌊q⌋ else -⌊-q⌋

/-- Python `max` of a list of scores; raises `ValueError` on an empty list. -/
def list_max : List ℚ → Except PyErr ℚ
  | [] => .error .valueError
  | x :: xs => .ok (xs.foldl max x)

/-- `if best_roi > best_island_roi` against an initial `-inf`
(genetic_island.py:27, 40-42): the running best is `none` until the first
update, and a later score replaces it only when strictly greater. -/
def update_best (cur : Option (List Entry × ℚ)) (c : List Entry) (roi : ℚ) :
    Option (List Entry × ℚ) :=
  match cur with
  | none => some (c, roi)
  | some (c0, r0) => if r0 < roi then some (c, roi) else some (c0, r0)

/-- Oracle draws for one reproduction slot (genetic_island.py:55-68). -/
structure SlotRand where
  rv : ℚ
  fresh : ℕ → ℕ
  parent1 : ℕ
  parent2 : ℕ
  cross_n1 : ℕ
  cross_picks1 : ℕ → ℕ
  cross_picks2 : ℕ → ℕ
  mut_parent : ℕ
  mut_rand : MutateRand

/-- Oracle draws for one island generation. -/
structure GenRand where
  kept_picks : ℕ → ℕ
  slot : ℕ → SlotRand
  fill : ℕ → ℕ → ℕ

/-- Oracle draws for one `run_island_worker` call (each worker process has its
own random state). -/
structure WorkerRand where
  init : ℕ → ℕ → ℕ
  gen : ℕ → GenRand

/-- Oracle draws for a whole island-engine run: the per-island initial
populations (genetic_island.py:130-132), each epoch's worker processes, and
the fresh populations sampled during each migration step
(genetic_island.py:190). -/
structure EngineRand where
  init : ℕ → ℕ → ℕ → ℕ
  worker : ℕ → ℕ → WorkerRand
  mig_init : ℕ → ℕ → ℕ → ℕ → ℕ

/-- The argument tuple handed to each island worker
(genetic_island.py:18-19, 143-154).  Note that it carries no population:
the engine's stored `island_populations` are not part of it. -/
structure IslandArgs where
  island_id : ℕ
  selected_inputs : List Entry
  items : Items
  table : Table
  num_items : ℕ
  island_pop_size : ℕ
  generations_per_migration : ℕ
  elite_size : ℕ
  keep_top_percentage : ℚ

/-- The top-up loop `while len(population) < island_pop_size`
(genetic_island.py:71-72), fuelled by the island population size. -/
def worker_fill (fill_r : ℕ → ℕ → ℕ) (input_items : List Entry)
    (num_items island_pop_size : ℕ) :
    ℕ → ℕ → List (List Entry) → Except PyErr (List (List Entry))
  | 0, _, population => .ok population
  | fuel + 1, t, population =>
    if population.length < island_pop_size then do
      let c ← create_random_contract (fill_r t) input_items num_items
      worker_fill fill_r input_items num_items island_pop_size fuel (t + 1)
        (population ++ [c])
    else .ok population

/-- One reproduction slot (genetic_island.py:55-68): 40% fresh random
contract, 30% crossover of two elites, 30% mutation of one elite. -/
def reproduce_slot (args : IslandArgs) (sr : SlotRand)
    (top_contracts : List (List Entry)) : Except PyErr (List Entry) :=
  if sr.rv < 2 / 5 then
    create_random_contract sr.fresh args.selected_inputs args.num_items
  else if sr.rv < 7 / 10 then do
    let parent1 ← py_choice sr.parent1 top_contracts
    let parent2 ← py_choice sr.parent2 top_contracts
    crossover sr.cross_n1 sr.cross_picks1 sr.cross_picks2 args.num_items
      parent1 parent2
  else do
    let base_contract ← py_choice sr.mut_parent top_contracts
    mutate sr.mut_rand args.items args.selected_inputs args.num_items base_contract

/-- One generation of the island worker's evolution loop
(genetic_island.py:30-72): evaluate, track the best, select the elite, keep
`top[0]` plus a random sample of further elites, fill the remaining slots via
`reproduce_slot`, deduplicate and top up. -/
def worker_generation (args : IslandArgs) (g : GenRand)
    (population : List (List Entry)) (best : Option (List Entry × ℚ)) :
    Except PyErr (List (List Entry) × Option (List Entry × ℚ)) := do
  let fitness_scores ← population.mapM fun contract =>
    calculate_contract_roi_fast contract args.items args.table
  let best_roi ← list_max fitness_scores
  let best_idx := fitness_scores.indexOf best_roi
  let best' := update_best best (population.getD best_idx []) best_roi
  let top_contracts := select_top_contracts population fitness_scores args.elite_size
  let t0 ← match top_contracts with
    | [] => .error .indexError
    | c :: _ => .ok c
  let num_to_keep := (max 0 (py_int (((args.elite_size : ℚ) - 1) * args.keep_top_percentage))).toNat
  let kept_contracts ← sample_wr g.kept_picks num_to_keep 0 top_contracts.tail
  let new_population := t0 :: kept_contracts
  let num_to_generate := args.island_pop_size - new_population.length
  let slots ← (List.range num_to_generate).mapM fun j =>
    reproduce_slot args (g.slot j) top_contracts
  let deduped := remove_duplicate_contracts (new_population ++ slots)
  let population' ← worker_fill g.fill args.selected_inputs args.num_items
    args.island_pop_size args.island_pop_size 0 deduped
  pure (population', best')

/-- The `for gen in range(generations_per_migration)` loop of
`run_island_worker`. -/
def worker_generations (args : IslandArgs) (r : WorkerRand) :
    ℕ → ℕ → List (List Entry) → Option (List Entry × ℚ) →
    Except PyErr (List (List Entry) × Option (List Entry × ℚ))
  | 0, _, population, best => .ok (population, best)
  | gens + 1, gidx, population, best => do
    let (population', best') ← worker_generation args (r.gen gidx) population best
    worker_generations args r gens (gidx + 1) population' best'

/-- The population the worker actually evolves (genetic_island.py:24):
`ga.initialize_population(selected_inputs, island_pop_size)` — a fresh
sample, not anything received from the engine. -/
def worker_start_population (args : IslandArgs) (r : WorkerRand) :
    Except PyErr (List (List Entry)) :=
  initialize_population r.init args.selected_inputs args.num_items
    args.island_pop_size

/-- `run_island_worker` (genetic_island.py:16-79): initialize a fresh island
population, evolve it for `generations_per_migration` generations, then
re-evaluate and return the island id, the best contract/ROI, and the top
`min(5, elite_size)` contracts for migration. -/
def run_island_worker (args : IslandArgs) (r : WorkerRand) :
    Except PyErr (ℕ × Option (List Entry × ℚ) × List (List Entry)) := do
  let population ← worker_start_population args r
  let (population', best) ← worker_generations args r
    args.generations_per_migration 0 population none
  let final_scores ← population'.mapM fun contract =>
    calculate_contract_roi_fast contract args.items args.table
  let top_for_migration := select_top_contracts population' final_scores
    (min 5 args.elite_size)
  pure (args.island_id, best, top_for_migration)

/-- The run configuration of `run_island_genetic_algorithm`
(genetic_island.py:82-93). -/
structure IslandConfig where
  selected_inputs : List Entry
  items : Items
  table : Table
  num_items : ℕ
  num_islands : ℕ
  population_per_island : ℕ
  total_generations : ℕ
  migration_interval : ℕ
  migration_size : ℕ
  elite_size : ℕ
  keep_top_percentage : ℚ

/-- The work-item construction of genetic_island.py:142-154: only static
configuration, never the island's stored population. -/
def make_island_args (cfg : IslandConfig) (island_id : ℕ) : IslandArgs :=
  ⟨island_id, cfg.selected_inputs, cfg.items, cfg.table, cfg.num_items,
   cfg.population_per_island, cfg.migration_interval, cfg.elite_size,
   cfg.keep_top_percentage⟩

/-- `num_migrations = total_generations // migration_interval`
(genetic_island.py:134). -/
def num_migrations (cfg : IslandConfig) : ℕ :=
  cfg.total_generations / cfg.migration_interval

/-- The engine's mutable state: `island_populations` and the running best. -/
structure EngineState where
  island_populations : List (List (List Entry))
  best : Option (List Entry × ℚ)
deriving DecidableEq

/-- Island initialization (genetic_island.py:126-132). -/
def engine_init (cfg : IslandConfig) (r : EngineRand) : Except PyErr EngineState := do
  let pops ← (List.range cfg.num_islands).mapM fun i =>
    initialize_population (r.init i) cfg.selected_inputs cfg.num_items
      cfg.population_per_island
  pure ⟨pops, none⟩

/-- Python `(i - 1) % num_islands` for `0 ≤ i < num_islands` (genetic_island.py:186). -/
def prev_island (i n : ℕ) : ℕ := (i + n - 1) % n

/-- One migration epoch (genetic_island.py:136-195): run all island workers in
parallel (`pool.map` returns results in submission order), collect per-island
bests and migrants (`top_contracts[:migration_size]`), and — except on the
final epoch — rebuild every island's population as
`initialize_population(population_per_island - len(migrants))` plus the
migrants from the previous island on the ring.  (With `ℕ` subtraction,
`population_per_island - len(migrants)` truncates at 0 exactly where the
Python negative size would also produce an empty fresh population.) -/
def engine_epoch (cfg : IslandConfig) (r : EngineRand) (epoch : ℕ)
    (s : EngineState) : Except PyErr EngineState := do
  let results ← (List.range cfg.num_islands).mapM fun i =>
    run_island_worker (make_island_args cfg i) (r.worker epoch i)
  let island_migrants := results.map fun res => res.2.2.take cfg.migration_size
  let best' := results.foldl (fun b res =>
    match res.2.1 with
    | none => b
    | some (c, roi) => update_best b c roi) s.best
  if epoch < num_migrations cfg - 1 then do
    let pops' ← (List.range cfg.num_islands).mapM fun i =>
      let migrants := island_migrants.getD (prev_island i cfg.num_islands) []
      do
        let new_pop ← initialize_population (r.mig_init epoch i)
          cfg.selected_inputs cfg.num_items
          (cfg.population_per_island - migrants.length)
        pure (new_pop ++ migrants)
    pure ⟨pops', best'⟩
  else pure ⟨s.island_populations, best'⟩

/-- The first `e` iterations of the migration-epoch loop of
`run_island_genetic_algorithm` (genetic_island.py:136-195); iterations beyond
`num_migrations` do nothing. -/
def run_island_epochs (cfg : IslandConfig) (r : EngineRand) :
    ℕ → Except PyErr EngineState
  | 0 => engine_init cfg r
  | e + 1 => do
    let s ← run_island_epochs cfg r e
    if e < num_migrations cfg then engine_epoch cfg r e s else pure s

/-! ### C1: ceiling discretization of the float bucket -/

unseal Rat.add Rat.mul Rat.sub Rat.inv in
/-- C1: the fitness evaluator's float bucket is `min(ceil(avg*100), 99)` with
ceiling semantics: an average normalized float exactly equal to `k/100` maps
to bucket `k`, any value strictly between `k/100` and `(k+1)/100` maps to
bucket `k+1` (capped at 99); in particular 0.37 gives bucket 37 and 0.371
gives bucket 38. -/
theorem C1_float_bucket_ceiling (k : ℕ) (q : ℚ) (hk : k ≤ 99)
    (h1 : (k : ℚ) / 100 < q) (h2 : q < ((k : ℚ) + 1) / 100) :
    float_factor_int ((k : ℚ) / 100) = (k : ℤ)
    ∧ float_factor_int q = min ((k : ℤ) + 1) 99
    ∧ float_factor_int ((37 : ℚ) / 100) = 37
    ∧ float_factor_int ((371 : ℚ) / 1000) = 38 := by
  refine ⟨?_, ?_, by decide, by decide⟩
  · unfold float_factor_int
    have h100 : ((k : ℚ) / 100) * 100 = (k : ℚ) := by
      field_simp
    rw [h100, Int.ceil_natCast]
    have : (k : ℤ) ≤ 99 := by exact_mod_cast hk
    omega
  · unfold float_factor_int
    have hceil : ⌈q * 100⌉ = (k : ℤ) + 1 := by
      rw [Int.ceil_eq_iff]
      constructor
      · push_cast
        linarith
      · push_cast
        linarith
    rw [hceil]

unseal Rat.add Rat.mul Rat.sub Rat.inv in
/-- Witness for C1 at `k = 37`, `q = 0.371`. -/
theorem C1_float_bucket_ceiling_witness :
    float_factor_int ((37 : ℕ) / 100 : ℚ) = ((37 : ℕ) : ℤ)
    ∧ float_factor_int ((371 : ℚ) / 1000) = min (((37 : ℕ) : ℤ) + 1) 99 := by
  have h := C1_float_bucket_ceiling 37 (371 / 1000) (by norm_num)
    (by norm_num) (by norm_num)
  exact ⟨h.1, h.2.1⟩

/-! ### C4: zero total cost fails with a typed error -/

/-- The price accumulator of `entry_scan` adds up exactly the entry prices. -/
theorem entry_scan_total_price (items : Items) :
    ∀ (l : List Entry) (s t : ℚ) (cs : List (String × ℕ)) (s' t' : ℚ)
      (cs' : List (String × ℕ)),
      entry_scan items l s t cs = .ok (s', t', cs') →
      t' = t + (l.map Entry.price).sum := by
  intro l
  induction l with
  | nil =>
    intro s t cs s' t' cs' h
    simp only [entry_scan, Except.ok.injEq, Prod.mk.injEq] at h
    simp [← h.2.1]
  | cons e rest ih =>
    intro s t cs s' t' cs' h
    simp only [entry_scan] at h
    cases hit : items e.id with
    | none => rw [hit] at h; exact absurd h (by simp)
    | some item =>
      rw [hit] at h
      have := ih _ _ _ _ _ _ h
      simp only [List.map_cons, List.sum_cons]
      linarith

/-- C4: a contract whose entry prices sum to zero makes
`calculate_contract_roi_fast` fail with an explicit typed error — it never
returns an ROI value. -/
theorem C4_zero_cost_raises (input_items : List Entry) (items : Items)
    (table : Table) (hsum : (input_items.map Entry.price).sum = 0) :
    ∃ err, calculate_contract_roi_fast input_items items table = .error err := by
  cases input_items with
  | nil => exact ⟨.indexError, rfl⟩
  | cons e0 rest =>
    cases hit : items e0.id with
    | none =>
      exact ⟨.keyError, by simp only [calculate_contract_roi_fast, hit]⟩
    | some first_item =>
      cases hscan : entry_scan items (e0 :: rest) 0 0 [] with
      | error err =>
        exact ⟨err, by
          simp only [calculate_contract_roi_fast, hit, hscan, except_error_bind]⟩
      | ok res =>
        obtain ⟨s, t, cs⟩ := res
        have ht : t = 0 := by
          have := entry_scan_total_price items (e0 :: rest) 0 0 [] s t cs hscan
          rw [this, hsum]; ring
        cases hev : expected_value_scan table first_item.real_rarity
            first_item.stattrak
            (float_factor_int (s / ((e0 :: rest).length : ℚ)))
            (e0 :: rest).length cs 0 with
        | error err =>
          exact ⟨err, by
            simp only [calculate_contract_roi_fast, hit, hscan, except_ok_bind,
              hev, except_error_bind]⟩
        | ok ev =>
          refine ⟨.zeroDivisionError, ?_⟩
          simp only [calculate_contract_roi_fast, hit, hscan, except_ok_bind,
            hev, ht, if_true, eq_self_iff_true]

/-- Concrete witness contract for C4: a single zero-priced entry. -/
def c4_entry : Entry := ⟨"a", 1 / 2, 0⟩

/-- Concrete catalog: one item of id `"a"` in source `"s1"`. -/
def item_a : Item := ⟨"a", 1, 100, "Mil-Spec Grade", false, 0, 1, 0, 1, ["s1"]⟩

/-- Concrete `ITEMS` dict holding only `item_a`. -/
def items_a : Items := fun id => if id = "a" then some item_a else none

/-- A table with no entries at all: every lookup is a `KeyError`. -/
def table_none : Table := fun _ _ _ _ => none

unseal Rat.add Rat.mul Rat.sub Rat.inv in
/-- Witness for C4: the zero-cost contract `[c4_entry]` evaluates to an
error. -/
theorem C4_zero_cost_raises_witness :
    ([c4_entry].map Entry.price).sum = 0
    ∧ ∃ err, calculate_contract_roi_fast [c4_entry] items_a table_none = .error err :=
  ⟨by decide, C4_zero_cost_raises [c4_entry] items_a table_none (by decide)⟩

/-! ### C5: a missing outcome key fails the evaluation -/

/-- If some counted source id has no table entry at the contract's bucket,
the expected-value loop raises. -/
theorem expected_value_scan_missing (table : Table) (r : String) (st : Bool)
    (ff : ℤ) (k : ℕ) (sid : String) (cnt : ℕ) :
    ∀ (cs : List (String × ℕ)) (acc : ℚ), (sid, cnt) ∈ cs →
      table r st sid ff = none →
      ∃ err, expected_value_scan table r st ff k cs acc = .error err := by
  intro cs
  induction cs with
  | nil => intro acc h; exact absurd h (by simp)
  | cons p rest ih =>
    intro acc hmem hmiss
    obtain ⟨sid', cnt'⟩ := p
    by_cases hs : sid' = sid
    · subst hs
      exact ⟨.keyError, by simp only [expected_value_scan, hmiss]⟩
    · cases hlook : table r st sid' ff with
      | none => exact ⟨.keyError, by simp only [expected_value_scan, hlook]⟩
      | some bucket =>
        have htail : (sid, cnt) ∈ rest := by
          rcases List.mem_cons.mp hmem with heq | h
          · exfalso
            apply hs
            have h1 : sid = sid' := congrArg Prod.fst heq
            exact h1.symm
          · exact h
        obtain ⟨err, herr⟩ :=
          ih (acc + bucket.meanPrice * ((cnt' : ℚ) / (k : ℚ))) htail hmiss
        exact ⟨err, by simp only [expected_value_scan, hlook, herr]⟩

/-- C5: a contract referencing a `(rarity, stattrak, source, bucket)` key
absent from the precomputed table makes `calculate_contract_roi_fast` fail
rather than return an ROI: here `(sid, cnt)` is one of the contract's source
counts and the table has no entry for it at the contract's computed bucket. -/
theorem C5_missing_key_raises (e0 : Entry) (rest : List Entry) (items : Items)
    (table : Table) (first_item : Item) (s t : ℚ)
    (counts : List (String × ℕ)) (sid : String) (cnt : ℕ)
    (h0 : items e0.id = some first_item)
    (hscan : entry_scan items (e0 :: rest) 0 0 [] = .ok (s, t, counts))
    (hmem : (sid, cnt) ∈ counts)
    (hmiss : table first_item.real_rarity first_item.stattrak sid
      (float_factor_int (s / ((e0 :: rest).length : ℚ))) = none) :
    ∃ err, calculate_contract_roi_fast (e0 :: rest) items table = .error err := by
  obtain ⟨err, herr⟩ := expected_value_scan_missing table first_item.real_rarity
    first_item.stattrak
    (float_factor_int (s / ((e0 :: rest).length : ℚ)))
    (e0 :: rest).length sid cnt counts 0 hmem hmiss
  refine ⟨err, ?_⟩
  simp only [calculate_contract_roi_fast, h0, hscan, except_ok_bind, herr,
    except_error_bind]

/-- Concrete witness entry for C5. -/
def c5_entry : Entry := ⟨"a", 1 / 2, 1⟩

unseal Rat.add Rat.mul Rat.sub Rat.inv in
/-- Witness for C5: with an empty table, the contract `[c5_entry]` (whose
item sits in source `"s1"`) fails to evaluate. -/
theorem C5_missing_key_raises_witness :
    entry_scan items_a [c5_entry] 0 0 [] = .ok (1 / 2, 1, [("s1", 1)])
    ∧ ∃ err, calculate_contract_roi_fast [c5_entry] items_a table_none = .error err :=
  ⟨by decide,
   C5_missing_key_raises c5_entry [] items_a table_none item_a (1 / 2) 1
     [("s1", 1)] "s1" 1 (by decide) (by decide) (by decide) rfl⟩

/-! ### C9: deduplication is idempotent -/

/-- Every contract surviving the deduplication loop has a signature outside
the `seen` set the loop started with. -/
theorem remove_duplicates_aux_not_seen :
    ∀ (l : List (List Entry)) (seen : List (List (String × ℚ))) (x : List Entry),
      x ∈ remove_duplicates_aux l seen → normalize_contract x ∉ seen := by
  intro l
  induction l with
  | nil => intro seen x hx; exact absurd hx (by simp [remove_duplicates_aux])
  | cons c rest ih =>
    intro seen x hx
    rw [remove_duplicates_aux] at hx
    by_cases hc : normalize_contract c ∈ seen
    · rw [if_pos hc] at hx
      exact ih seen x hx
    · rw [if_neg hc] at hx
      rcases List.mem_cons.mp hx with rfl | hx'
      · exact hc
      · intro hxs
        exact ih _ x hx' (List.mem_cons_of_mem _ hxs)

/-- The output of the deduplication loop has pairwise distinct signatures. -/
theorem remove_duplicates_aux_pairwise :
    ∀ (l : List (List Entry)) (seen : List (List (String × ℚ))),
      (remove_duplicates_aux l seen).Pairwise
        (fun a b => normalize_contract a ≠ normalize_contract b) := by
  intro l
  induction l with
  | nil => intro seen; simp [remove_duplicates_aux]
  | cons c rest ih =>
    intro seen
    rw [remove_duplicates_aux]
    by_cases hc : normalize_contract c ∈ seen
    · rw [if_pos hc]; exact ih seen
    · rw [if_neg hc]
      refine List.Pairwise.cons ?_ (ih _)
      intro y hy heq
      exact remove_duplicates_aux_not_seen rest _ y hy (heq ▸ List.mem_cons_self _ _)

/-- On a list whose signatures are pairwise distinct and disjoint from `seen`,
the deduplication loop is the identity. -/
theorem remove_duplicates_aux_fixed :
    ∀ (m : List (List Entry)) (seen : List (List (String × ℚ))),
      (∀ x ∈ m, normalize_contract x ∉ seen) →
      m.Pairwise (fun a b => normalize_contract a ≠ normalize_contract b) →
      remove_duplicates_aux m seen = m := by
  intro m
  induction m with
  | nil => intro seen _ _; rfl
  | cons x rest ih =>
    intro seen hseen hpw
    rw [remove_duplicates_aux, if_neg (hseen x (List.mem_cons_self _ _))]
    congr 1
    refine ih _ ?_ (List.Pairwise.of_cons hpw)
    intro y hy
    intro hmem
    rcases List.mem_cons.mp hmem with heq | hmem'
    · exact List.rel_of_pairwise_cons hpw hy heq.symm
    · exact hseen y (List.mem_cons_of_mem _ hy) hmem'

/-- C9: `remove_duplicate_contracts` is idempotent — deduplicating (by the
order-independent canonical signature, keeping first occurrences in order) an
already-deduplicated population changes nothing. -/
theorem C9_remove_duplicates_idempotent (contracts : List (List Entry)) :
    remove_duplicate_contracts (remove_duplicate_contracts contracts)
      = remove_duplicate_contracts contracts := by
  unfold remove_duplicate_contracts
  exact remove_duplicates_aux_fixed _ []
    (fun x _ => by simp)
    (remove_duplicates_aux_pairwise contracts [])

/-! ### C3: the float-mutation branch always raises -/

/-- C3 (code bug): whenever the second 50% coin selects the float-mutation
branch, `mutate` fails — `choice(generate_float_values(...))` yields a single
float, and unpacking it as `(new_float, price_mult)` raises `TypeError`
(other failures of the same call path surface as earlier errors).  The claim
that mutate re-rolls one entry's float and never fails is contradicted. -/
theorem C3_float_mutation_branch_raises (rand : MutateRand) (items : Items)
    (input_items : List Entry) (num_items : ℕ) (contract : List Entry)
    (h2 : rand.coin2 < 1 / 2) :
    ∃ err, mutate rand items input_items num_items contract = .error err := by
  cases hphase : mutate_replacement_phase rand input_items num_items contract with
  | error err =>
    exact ⟨err, by simp only [mutate, hphase, except_error_bind]⟩
  | ok m1 =>
    by_cases hK : num_items = 0
    · exact ⟨.valueError, by
        simp only [mutate, hphase, except_ok_bind, if_pos h2, if_pos hK]⟩
    · cases hget : m1.get? (rand.pos2 % num_items) with
      | none =>
        exact ⟨.indexError, by
          simp only [mutate, hphase, except_ok_bind, if_pos h2, if_neg hK, hget]⟩
      | some entry =>
        cases hitem : items entry.id with
        | none =>
          exact ⟨.keyError, by
            simp only [mutate, hphase, except_ok_bind, if_pos h2, if_neg hK,
              hget, hitem]⟩
        | some item_data =>
          exact ⟨.typeError, by
            simp only [mutate, hphase, except_ok_bind, if_pos h2, if_neg hK,
              hget, hitem]⟩

/-- The oracle draws for the C3 witness: the replacement coin misses
(`coin1 = 1 ≥ 1/2`), the float-mutation coin hits (`coin2 = 0 < 1/2`). -/
def c3_rand : MutateRand :=
  ⟨1, 0, fun _ => 0, fun _ => 0, fun _ => 0, fun _ => 0, 0, 0, 0⟩

/-- A 1-entry contract over the concrete catalog for the C3 witness. -/
def c3_contract : List Entry := [⟨"a", 1 / 2, 1⟩]

unseal Rat.add Rat.mul Rat.sub Rat.inv in
/-- Witness for C3: at the concrete oracle `c3_rand` the float-mutation
branch fires and `mutate` fails. -/
theorem C3_float_mutation_branch_raises_witness :
    c3_rand.coin2 < 1 / 2
    ∧ ∃ err, mutate c3_rand items_a c3_contract 1 c3_contract = .error err :=
  ⟨by decide,
   C3_float_mutation_branch_raises c3_rand items_a c3_contract 1 c3_contract
     (by decide)⟩

/-! ### C7: the liquidity filter zeroes illiquid outcome prices -/

/-- C7: in every stored bucket, each outcome's recorded price is its item's
market price when the item has strictly more than `MINIMUM_OFFERS` offers and
0 otherwise, and the bucket's mean (`bucket[0]`) is the arithmetic mean of
exactly those recorded prices — so an illiquid item contributes 0 to it. -/
theorem C7_liquidity_zeroes_illiquid (item_of : String → Item)
    (so : List (String × SourceMapping)) (r : String) (st : Bool)
    (sid : String) (ff : ℕ) (b : OutcomeBucket)
    (hmem : (r, st, sid, ff, b) ∈ precompute_outcomes item_of so) :
    (∀ o ∈ b.outcomes, ∃ it : Item,
        o.item_id = it.id
        ∧ o.price = (if MINIMUM_OFFERS < it.offers then it.price else 0)
        ∧ (it.offers ≤ MINIMUM_OFFERS → o.price = 0)
        ∧ (MINIMUM_OFFERS < it.offers → o.price = it.price))
    ∧ b.meanPrice = (b.outcomes.map Outcome.price).sum / (b.outcomes.length : ℚ) := by
  simp only [precompute_outcomes, List.mem_flatMap, List.mem_range] at hmem
  obtain ⟨ridx, _, hmem⟩ := hmem
  obtain ⟨st', _, hmem⟩ := hmem
  obtain ⟨p, _, hmem⟩ := hmem
  split at hmem
  · exact absurd hmem (by simp)
  · simp only [List.mem_flatMap, List.mem_range] at hmem
    obtain ⟨ff', _, hmem⟩ := hmem
    split at hmem
    · exact absurd hmem (by simp)
    · simp only [List.mem_singleton, Prod.mk.injEq] at hmem
      obtain ⟨-, -, -, -, hb⟩ := hmem
      subst hb
      constructor
      · intro o ho
        simp only [List.mem_filterMap] at ho
        obtain ⟨it, -, hsome⟩ := ho
        split at hsome
        · injection hsome with h
          subst h
          refine ⟨it, rfl, rfl, ?_, ?_⟩
          · intro hoff
            simp only [if_neg (by omega : ¬ MINIMUM_OFFERS < it.offers)]
          · intro hoff
            simp only [if_pos hoff]
        · exact absurd hsome (by simp)
      · rfl

/-- Concrete catalog for the C7 witness: the illiquid output item `"b"`
(10 offers) and the liquid `"c"` (100 offers). -/
def c7_item_of : String → Item := fun id =>
  if id = "b" then ⟨"b", 7, 10, "Restricted", false, 0, 1, 0, 1, ["s"]⟩
  else if id = "c" then ⟨"c", 8, 100, "Restricted", false, 0, 1, 0, 1, ["s"]⟩
  else ⟨id, 1, 100, "Mil-Spec Grade", false, 0, 1, 0, 1, ["s"]⟩

/-- Concrete `SOURCE_OUTCOMES` for the C7 witness: one source `"s"` with the
Mil-Spec input `"a"` and the Restricted outputs `"b"` and `"c"`. -/
def c7_so : List (String × SourceMapping) :=
  [("s", fun rarity =>
    if rarity = "Mil-Spec Grade" then some (fun st => if st then [] else ["a"])
    else if rarity = "Restricted" then some (fun st => if st then [] else ["b", "c"])
    else none)]

unseal Rat.add Rat.mul Rat.sub Rat.inv in
/-- Witness for C7: in the stored bucket at float factor 0 the illiquid item
`"b"` is recorded with price 0 (not 7) and the mean is `(0 + 8) / 2 = 4`. -/
theorem C7_liquidity_zeroes_illiquid_witness :
    ("Mil-Spec Grade", false, "s", 0,
        (⟨4, [⟨"b", 0, 0⟩, ⟨"c", 0, 8⟩]⟩ : OutcomeBucket))
      ∈ precompute_outcomes c7_item_of c7_so
    ∧ ((⟨4, [⟨"b", 0, 0⟩, ⟨"c", 0, 8⟩]⟩ : OutcomeBucket).meanPrice
        = (([⟨"b", 0, 0⟩, ⟨"c", 0, 8⟩] : List Outcome).map Outcome.price).sum
            / (([⟨"b", 0, 0⟩, ⟨"c", 0, 8⟩] : List Outcome).length : ℚ)) :=
  ⟨by decide,
   (C7_liquidity_zeroes_illiquid c7_item_of c7_so "Mil-Spec Grade" false "s" 0
     ⟨4, [⟨"b", 0, 0⟩, ⟨"c", 0, 8⟩]⟩ (by decide)).2⟩

/-! ### C10: the candidate pool only holds liquid, priced, reachable items -/

/-- C10: every entry of the pool returned by `load_input_items` refers to an
item with strictly positive price and strictly more than `MINIMUM_OFFERS`
offers, carries that item's price, and has at least one source that reaches
the next rarity tier — items failing any of these filters are excluded. -/
theorem C10_pool_entries_filtered (item_of : String → Item)
    (items_by_rarity : String → Option (Bool → List String))
    (sources_keys : List String) (so_map : String → Option SourceMapping)
    (rarity : String) (stattrak : Bool) (e : Entry)
    (hmem : e ∈ load_input_items item_of items_by_rarity sources_keys so_map
      rarity stattrak) :
    0 < (item_of e.id).price
    ∧ MINIMUM_OFFERS < (item_of e.id).offers
    ∧ e.price = (item_of e.id).price
    ∧ sources_keys.any (has_next_tier_source so_map rarity
        (RARITY_ORDER.getD (RARITY_ORDER.indexOf rarity + 1) "") stattrak e.id)
      = true := by
  unfold load_input_items at hmem
  split at hmem
  · exact absurd hmem (by simp)
  · split at hmem
    · split at hmem
      · exact absurd hmem (by simp)
      · simp only [List.mem_flatMap] at hmem
        obtain ⟨item_id, -, hmem⟩ := hmem
        split at hmem
        · exact absurd hmem (by simp)
        · next hfilter =>
          push_neg at hfilter
          split at hmem
          · next hvalid =>
            simp only [List.mem_cons, List.not_mem_nil, or_false] at hmem
            have hid : e.id = item_id ∧ e.price = (item_of item_id).price := by
              rcases hmem with h | h | h
              · rw [h]; exact ⟨rfl, rfl⟩
              · rw [h]; exact ⟨rfl, rfl⟩
              · rw [h]; exact ⟨rfl, rfl⟩
            rw [hid.1]
            exact ⟨hfilter.1, hfilter.2, hid.2, hvalid⟩
          · exact absurd hmem (by simp)
    · exact absurd hmem (by simp)

/-- Concrete catalog for the C10 witness: every id resolves to a liquid
Classified item priced 2. -/
def c10_item_of : String → Item :=
  fun id => ⟨id, 2, 100, "Classified", false, 0, 1, 0, 1, ["s"]⟩

/-- Concrete `ITEMS_BY_RARITY` for the C10 witness. -/
def c10_by_rarity : String → Option (Bool → List String) :=
  fun r => if r = "Classified" then some (fun st => if st then [] else ["a"])
    else none

/-- Concrete `SOURCE_OUTCOMES` for the C10 witness: source `"s"` holds the
Classified input `"a"` and the Covert output `"b"`. -/
def c10_so_map : String → Option SourceMapping :=
  fun sid =>
    if sid = "s" then
      some (fun r =>
        if r = "Classified" then some (fun st => if st then [] else ["a"])
        else if r = "Covert" then some (fun st => if st then [] else ["b"])
        else none)
    else none

unseal Rat.add Rat.mul Rat.sub Rat.inv in
/-- Witness for C10: the pool for Classified inputs contains the 25% float
variant of item `"a"`, which is priced and liquid. -/
theorem C10_pool_entries_filtered_witness :
    (⟨"a", 1 / 4, 2⟩ : Entry) ∈ load_input_items c10_item_of c10_by_rarity
      ["s"] c10_so_map "Classified" false
    ∧ 0 < (c10_item_of "a").price
    ∧ MINIMUM_OFFERS < (c10_item_of "a").offers := by
  have hmem : (⟨"a", 1 / 4, 2⟩ : Entry) ∈ load_input_items c10_item_of
      c10_by_rarity ["s"] c10_so_map "Classified" false := by decide
  have h := C10_pool_entries_filtered c10_item_of c10_by_rarity ["s"] c10_so_map
    "Classified" false _ hmem
  exact ⟨hmem, h.1, h.2.1⟩

/-! ### C6: parallel evaluation equals sequential evaluation -/

/-- Shifting a slice over a dropped prefix. -/
theorem py_slice_add (l : List α) (b x y : ℕ) :
    py_slice l (b + x) (b + y) = py_slice (l.drop b) x y := by
  simp only [py_slice, List.drop_take, List.drop_drop]
  congr 1
  omega

/-- Proof-level recursive view of the contiguous batch decomposition of
`evaluate_population_parallel`. -/
def batches (b : ℕ) : ℕ → List α → List (List α)
  | 0, _ => []
  | 1, l => [l]
  | n + 2, l => l.take b :: batches b (n + 1) (l.drop b)

/-- Batches joined back together give the original population. -/
theorem batches_flatten (b : ℕ) :
    ∀ (n : ℕ) (l : List α), 1 ≤ n → (batches b n l).flatten = l := by
  intro n
  induction n with
  | zero => intro l h; omega
  | succ n ih =>
    intro l _
    cases n with
    | zero => simp [batches]
    | succ m =>
      rw [batches, List.flatten_cons, ih (l.drop b) (by omega)]
      exact List.take_append_drop b l

/-- Pair each batch with its starting index in the original population. -/
def with_starts : List (List α) → ℕ → List (List α × ℕ)
  | [], _ => []
  | x :: rest, s => (x, s) :: with_starts rest (s + x.length)

/-- The work items built by `evaluate_population_parallel` (slices
`[i*b : i*b+b]`, the last one absorbing the remainder, each tagged with its
start index) are exactly the consecutive batches with their start offsets. -/
theorem work_items_eq_with_starts (b : ℕ) :
    ∀ (n : ℕ) (l : List (List Entry)) (s0 : ℕ), 1 ≤ n → (n - 1) * b ≤ l.length →
      (List.range n).map (fun i =>
          (py_slice l (i * b) (if i < n - 1 then i * b + b else l.length),
           s0 + i * b))
        = with_starts (batches b n l) s0 := by
  intro n
  induction n with
  | zero => intro l s0 h; omega
  | succ n ih =>
    intro l s0 _ hb
    cases n with
    | zero =>
      rw [show List.range 1 = [0] from rfl, List.map_cons, List.map_nil,
        batches, with_starts, with_starts]
      have h0 : ¬ (0 : ℕ) < 1 - 1 := by omega
      rw [if_neg h0]
      simp [py_slice, List.take_length]
    | succ m =>
      have hb' : (m + 1) * b ≤ l.length := by
        have : (m + 1 + 1 - 1) * b = (m + 1) * b := by norm_num
        omega
      have hble : b ≤ l.length := by
        have h1 : 1 * b ≤ (m + 1) * b := Nat.mul_le_mul_right b (by omega)
        omega
      have hdropb : m * b ≤ (l.drop b).length := by
        rw [List.length_drop]
        have : (m + 1) * b = m * b + b := by ring
        omega
      rw [List.range_succ_eq_map, List.map_cons, List.map_map]
      rw [batches, with_starts]
      have hlen : (l.take b).length = b := by
        rw [List.length_take]
        omega
      rw [hlen]
      congr 1
      · simp [py_slice]
      · have htail := ih (l.drop b) (s0 + b) (by omega)
          (by simpa using hdropb)
        rw [← htail]
        apply List.map_congr_left
        intro i hi
        have hi' : i < m + 1 := List.mem_range.mp hi
        simp only [Function.comp]
        have hsucc : Nat.succ i * b = b + i * b := by
          show (i + 1) * b = b + i * b
          ring
        have hstart : s0 + Nat.succ i * b = s0 + b + i * b := by
          rw [hsucc]; omega
        by_cases hcase : i < m
        · have h1 : Nat.succ i < m + 2 - 1 := by omega
          have h2 : i < m + 1 - 1 := by omega
          rw [if_pos h1, if_pos h2]
          have hslice : py_slice l (Nat.succ i * b) (Nat.succ i * b + b)
              = py_slice (l.drop b) (i * b) (i * b + b) := by
            rw [hsucc, show b + i * b + b = b + (i * b + b) by omega,
              py_slice_add]
          rw [hslice, hstart]
        · have hie : i = m := by omega
          subst hie
          have h1 : ¬ Nat.succ i < i + 2 - 1 := by omega
          have h2 : ¬ i < i + 1 - 1 := by omega
          rw [if_neg h1, if_neg h2]
          have hslice : py_slice l (Nat.succ i * b) l.length
              = py_slice (l.drop b) (i * b) (l.drop b).length := by
            rw [hsucc, show l.length = b + (l.drop b).length by
              rw [List.length_drop]; omega, py_slice_add]
          rw [hslice, hstart]

/-- Splitting the worker over an append: the second half is tagged from the
first half's end. -/
theorem evaluate_population_worker_append (items : Items) (table : Table) :
    ∀ (l1 l2 : List (List Entry)) (s : ℕ),
      evaluate_population_worker items table (l1 ++ l2) s =
        (do
          let r1 ← evaluate_population_worker items table l1 s
          let r2 ← evaluate_population_worker items table l2 (s + l1.length)
          pure (r1 ++ r2)) := by
  intro l1
  induction l1 with
  | nil =>
    intro l2 s
    simp only [List.nil_append, evaluate_population_worker, except_ok_bind,
      List.length_nil, Nat.add_zero]
    cases h : evaluate_population_worker items table l2 s <;>
      simp [h, except_ok_bind, except_error_bind]
  | cons c l1 ih =>
    intro l2 s
    simp only [List.cons_append, evaluate_population_worker]
    cases hc : calculate_contract_roi_fast c items table with
    | error e => simp [except_error_bind]
    | ok roi =>
      simp only [except_ok_bind, List.append_eq]
      rw [ih l2 (s + 1)]
      have harith : s + 1 + l1.length = s + (c :: l1).length := by
        simp only [List.length_cons]
        omega
      rw [harith]
      cases h1 : evaluate_population_worker items table l1 (s + 1) with
      | error e => simp [except_error_bind]
      | ok r1 =>
        cases h2 : evaluate_population_worker items table l2
            (s + (c :: l1).length) with
        | error e => simp [except_ok_bind, except_error_bind]
        | ok r2 => simp [except_ok_bind]

/-- Joining the per-batch worker results reproduces one worker pass over the
whole population. -/
theorem mapM_worker_with_starts (items : Items) (table : Table) :
    ∀ (bs : List (List (List Entry))) (s : ℕ),
      ((with_starts bs s).mapM
          (fun w => evaluate_population_worker items table w.1 w.2)).map
        List.flatten
        = evaluate_population_worker items table bs.flatten s := by
  intro bs
  induction bs with
  | nil => intro s; rfl
  | cons x rest ih =>
    intro s
    rw [with_starts, List.flatten_cons,
      evaluate_population_worker_append items table x rest.flatten s]
    rw [List.mapM_cons]
    cases hx : evaluate_population_worker items table x s with
    | error e => simp only [except_error_bind]; rfl
    | ok r =>
      simp only [except_ok_bind]
      rw [← ih (s + x.length)]
      cases hrest : (with_starts rest (s + x.length)).mapM
          (fun w => evaluate_population_worker items table w.1 w.2) with
      | error e => rfl
      | ok rs => rfl

/-- A successful worker pass starting at `s` yields increasing tags bounded
below by `s`. -/
theorem evaluate_population_worker_sorted (items : Items) (table : Table) :
    ∀ (l : List (List Entry)) (s : ℕ) (r : List (ℕ × ℚ)),
      evaluate_population_worker items table l s = .ok r →
      (∀ p ∈ r, s ≤ p.1) ∧ r.Pairwise index_le := by
  intro l
  induction l with
  | nil =>
    intro s r h
    simp only [evaluate_population_worker, Except.ok.injEq] at h
    subst h
    simp
  | cons c rest ih =>
    intro s r h
    simp only [evaluate_population_worker] at h
    cases hc : calculate_contract_roi_fast c items table with
    | error e =>
      rw [hc, except_error_bind] at h
      exact absurd h (by simp)
    | ok roi =>
      rw [hc, except_ok_bind] at h
      cases hrest : evaluate_population_worker items table rest (s + 1) with
      | error e =>
        rw [hrest, except_error_bind] at h
        exact absurd h (by simp)
      | ok r' =>
        rw [hrest, except_ok_bind] at h
        rw [show (pure ((s, roi) :: r') : Except PyErr (List (ℕ × ℚ)))
            = Except.ok ((s, roi) :: r') from rfl] at h
        injection h with h
        subst h
        obtain ⟨hbound, hpw⟩ := ih (s + 1) r' hrest
        constructor
        · intro p hp
          rcases List.mem_cons.mp hp with rfl | hp'
          · exact le_refl s
          · exact le_trans (by omega) (hbound p hp')
        · exact List.Pairwise.cons
            (fun p hp => le_trans (by omega) (hbound p hp)) hpw

/-- A failing worker pass fails exactly like the sequential evaluation. -/
theorem evaluate_population_worker_error (items : Items) (table : Table) :
    ∀ (l : List (List Entry)) (s : ℕ) (e : PyErr),
      evaluate_population_worker items table l s = .error e →
      evaluate_population_sequential l items table = .error e := by
  intro l
  induction l with
  | nil =>
    intro s e h
    exact absurd h (by simp [evaluate_population_worker])
  | cons c rest ih =>
    intro s e h
    simp only [evaluate_population_worker] at h
    unfold evaluate_population_sequential
    rw [List.mapM_cons]
    cases hc : calculate_contract_roi_fast c items table with
    | error e1 =>
      rw [hc, except_error_bind] at h
      injection h with h
      subst h
      simp only [except_error_bind]
    | ok roi =>
      rw [hc, except_ok_bind] at h
      cases hrest : evaluate_population_worker items table rest (s + 1) with
      | error e1 =>
        rw [hrest, except_error_bind] at h
        injection h with h
        subst h
        have hseq := ih (s + 1) e1 hrest
        unfold evaluate_population_sequential at hseq
        simp only [except_ok_bind, hseq, except_error_bind]
      | ok r' =>
        rw [hrest, except_ok_bind] at h
        exact absurd h (by
          rw [show (pure ((s, roi) :: r') : Except PyErr (List (ℕ × ℚ)))
            = Except.ok ((s, roi) :: r') from rfl]
          simp)

/-- A successful worker pass carries exactly the sequential scores as its
second components. -/
theorem evaluate_population_worker_map_snd (items : Items) (table : Table) :
    ∀ (l : List (List Entry)) (s : ℕ) (r : List (ℕ × ℚ)),
      evaluate_population_worker items table l s = .ok r →
      evaluate_population_sequential l items table = .ok (r.map Prod.snd) := by
  intro l
  induction l with
  | nil =>
    intro s r h
    simp only [evaluate_population_worker, Except.ok.injEq] at h
    subst h
    simp [evaluate_population_sequential, List.mapM_nil]
    rfl
  | cons c rest ih =>
    intro s r h
    simp only [evaluate_population_worker] at h
    unfold evaluate_population_sequential
    rw [List.mapM_cons]
    cases hc : calculate_contract_roi_fast c items table with
    | error e =>
      rw [hc, except_error_bind] at h
      exact absurd h (by simp)
    | ok roi =>
      rw [hc, except_ok_bind] at h
      cases hrest : evaluate_population_worker items table rest (s + 1) with
      | error e =>
        rw [hrest, except_error_bind] at h
        exact absurd h (by simp)
      | ok r' =>
        rw [hrest, except_ok_bind] at h
        rw [show (pure ((s, roi) :: r') : Except PyErr (List (ℕ × ℚ)))
            = Except.ok ((s, roi) :: r') from rfl] at h
        injection h with h
        subst h
        have hseq := ih (s + 1) r' hrest
        unfold evaluate_population_sequential at hseq
        simp only [except_ok_bind, hseq, List.map_cons]
        rfl

/-- The zeta-expanded body of `evaluate_population_parallel` equals the
sequential evaluation. -/
theorem evaluate_population_parallel_body (items : Items) (table : Table)
    (population : List (List Entry)) (num_processes : ℕ)
    (hn : 1 ≤ num_processes) :
    (do
      let results ← ((List.range num_processes).map fun i =>
          (py_slice population (i * (population.length / num_processes))
            (if i < num_processes - 1 then
              i * (population.length / num_processes)
                + population.length / num_processes
             else population.length),
           i * (population.length / num_processes))).mapM
        (fun w => evaluate_population_worker items table w.1 w.2)
      pure (((results.flatten).insertionSort index_le).map Prod.snd))
      = evaluate_population_sequential population items table := by
  set b := population.length / num_processes with hbdef
  have hble : (num_processes - 1) * b ≤ population.length := by
    have h1 : (num_processes - 1) * b ≤ num_processes * b :=
      Nat.mul_le_mul_right b (by omega)
    have h2 : num_processes * b ≤ population.length := by
      rw [Nat.mul_comm, hbdef]
      exact Nat.div_mul_le_self _ _
    omega
  have hmap : ((List.range num_processes).map fun i =>
      (py_slice population (i * b)
        (if i < num_processes - 1 then i * b + b else population.length),
       i * b))
      = with_starts (batches b num_processes population) 0 := by
    rw [← work_items_eq_with_starts b num_processes population 0 hn hble]
    apply List.map_congr_left
    intro a _
    simp
  rw [hmap]
  have hws := mapM_worker_with_starts items table
    (batches b num_processes population) 0
  rw [batches_flatten b num_processes population hn] at hws
  cases hm : (with_starts (batches b num_processes population) 0).mapM
      (fun w => evaluate_population_worker items table w.1 w.2) with
  | error e =>
    rw [hm] at hws
    rw [except_map_error] at hws
    rw [except_error_bind,
      evaluate_population_worker_error items table population 0 e hws.symm]
  | ok rs =>
    rw [hm] at hws
    rw [except_map_ok] at hws
    have hall : evaluate_population_worker items table population 0
        = .ok rs.flatten := hws.symm
    have hsorted : rs.flatten.Pairwise index_le :=
      (evaluate_population_worker_sorted items table population 0
        rs.flatten hall).2
    rw [except_ok_bind,
      evaluate_population_worker_map_snd items table population 0
        rs.flatten hall,
      List.Sorted.insertionSort_eq hsorted]
    rfl

/-- C6: for every population and every positive worker count, the parallel
evaluation returns exactly the in-order sequential scores — `fitness[i]` is
the score of `population[i]` regardless of the batch partition. -/
theorem C6_parallel_eq_sequential (population : List (List Entry))
    (items : Items) (table : Table) (num_processes : ℕ)
    (hn : 1 ≤ num_processes) :
    evaluate_population_parallel population items table num_processes
      = evaluate_population_sequential population items table := by
  unfold evaluate_population_parallel
  rw [if_neg (by omega : ¬ num_processes = 0)]
  exact evaluate_population_parallel_body items table population num_processes hn

/-- A table answering every key with a mean price of 1 and no outcomes. -/
def table_one : Table := fun _ _ _ _ => some ⟨1, []⟩

unseal Rat.add Rat.mul Rat.sub Rat.inv in
/-- Witness for C6: a 3-contract population over the concrete catalog,
evaluated with 2 workers. -/
theorem C6_parallel_eq_sequential_witness :
    (1 : ℕ) ≤ 2
    ∧ evaluate_population_parallel [c3_contract, c3_contract, c3_contract]
        items_a table_one 2
      = evaluate_population_sequential [c3_contract, c3_contract, c3_contract]
          items_a table_one :=
  ⟨by decide,
   C6_parallel_eq_sequential [c3_contract, c3_contract, c3_contract]
     items_a table_one 2 (by decide)⟩

/-! ### C8: island migration conserves the total population -/

/-- A successful `sample(l, k)` returns exactly `k` elements and requires
`k ≤ |l|`. -/
theorem sample_wr_ok_length (picks : ℕ → ℕ) :
    ∀ (k t : ℕ) (l : List α) (r : List α),
      sample_wr picks k t l = .ok r → r.length = k ∧ k ≤ l.length := by
  intro k
  induction k with
  | zero =>
    intro t l r h
    simp only [sample_wr, Except.ok.injEq] at h
    subst h
    simp
  | succ k ih =>
    intro t l r h
    cases l with
    | nil => exact absurd h (by simp [sample_wr])
    | cons x xs =>
      simp only [sample_wr] at h
      cases hinner : sample_wr picks k (t + 1)
          ((x :: xs).eraseIdx (picks t % (x :: xs).length)) with
      | error e => rw [hinner] at h; exact absurd h (by simp [except_map_error])
      | ok rest =>
        rw [hinner] at h
        rw [except_map_ok] at h
        injection h with h
        subst h
        obtain ⟨hlen, hle⟩ := ih (t + 1) _ rest hinner
        have hidx : picks t % (x :: xs).length < (x :: xs).length :=
          Nat.mod_lt _ (by simp)
        have herase : ((x :: xs).eraseIdx (picks t % (x :: xs).length)).length
            = (x :: xs).length - 1 := by
          rw [List.length_eraseIdx]
          simp only [List.length_cons] at hidx ⊢
          simp [hidx]
        constructor
        · simp [hlen]
        · rw [herase] at hle
          simp only [List.length_cons] at hle ⊢
          omega

/-- A successful attempts loop never grows the population beyond the
requested size. -/
theorem init_pop_attempts_ok_le (r : ℕ → ℕ → ℕ) (input_items : List Entry)
    (num_items population_size : ℕ) :
    ∀ (fuel t : ℕ) (pop : List (List Entry)) (seen : List (List (String × ℚ)))
      (pop' : List (List Entry)) (t' : ℕ),
      pop.length ≤ population_size →
      init_pop_attempts r input_items num_items population_size fuel t pop seen
        = .ok (pop', t') →
      pop'.length ≤ population_size := by
  intro fuel
  induction fuel with
  | zero =>
    intro t pop seen pop' t' hle h
    simp only [init_pop_attempts, Except.ok.injEq, Prod.mk.injEq] at h
    rw [← h.1]
    exact hle
  | succ fuel ih =>
    intro t pop seen pop' t' hle h
    simp only [init_pop_attempts] at h
    split at h
    · cases hc : create_random_contract (r t) input_items num_items with
      | error e => rw [hc, except_error_bind] at h; exact absurd h (by simp)
      | ok c =>
        rw [hc, except_ok_bind] at h
        split at h
        · exact ih _ _ _ _ _ hle h
        · next hsz _ =>
          exact ih _ _ _ _ _ (by simp; omega) h
    · simp only [Except.ok.injEq, Prod.mk.injEq] at h
      rw [← h.1]
      exact hle

/-- A successful fill loop with enough fuel tops the population up to exactly
the requested size. -/
theorem init_pop_fill_ok_length (r : ℕ → ℕ → ℕ) (input_items : List Entry)
    (num_items population_size : ℕ) :
    ∀ (fuel t : ℕ) (pop : List (List Entry)) (pop' : List (List Entry)),
      pop.length ≤ population_size →
      population_size ≤ pop.length + fuel →
      init_pop_fill r input_items num_items population_size fuel t pop
        = .ok pop' →
      pop'.length = population_size := by
  intro fuel
  induction fuel with
  | zero =>
    intro t pop pop' h1 h2 h
    simp only [init_pop_fill, Except.ok.injEq] at h
    subst h
    omega
  | succ fuel ih =>
    intro t pop pop' h1 h2 h
    simp only [init_pop_fill] at h
    split at h
    · cases hc : create_random_contract (r t) input_items num_items with
      | error e => rw [hc, except_error_bind] at h; exact absurd h (by simp)
      | ok c =>
        rw [hc, except_ok_bind] at h
        next hsz =>
          exact ih _ _ _ (by simp; omega) (by simp; omega) h
    · next hsz =>
      simp only [Except.ok.injEq] at h
      subst h
      omega

/-- A successful `initialize_population` returns exactly the requested
population size. -/
theorem initialize_population_ok_length (r : ℕ → ℕ → ℕ)
    (input_items : List Entry) (num_items population_size : ℕ)
    (pop : List (List Entry))
    (h : initialize_population r input_items num_items population_size
      = .ok pop) :
    pop.length = population_size := by
  unfold initialize_population at h
  cases ha : init_pop_attempts r input_items num_items population_size
      (population_size * 10) 0 [] [] with
  | error e => rw [ha, except_error_bind] at h; exact absurd h (by simp)
  | ok p =>
    obtain ⟨pop0, t0⟩ := p
    rw [ha, except_ok_bind] at h
    have hle := init_pop_attempts_ok_le r input_items num_items population_size
      (population_size * 10) 0 [] [] pop0 t0 (by simp) ha
    exact init_pop_fill_ok_length r input_items num_items population_size
      population_size t0 pop0 pop hle (by omega) h

/-- The same statement for the island worker's fill loop
(genetic_island.py:71-72). -/
theorem worker_fill_ok_length (fill_r : ℕ → ℕ → ℕ) (input_items : List Entry)
    (num_items island_pop_size : ℕ) :
    ∀ (fuel t : ℕ) (pop : List (List Entry)) (pop' : List (List Entry)),
      pop.length ≤ island_pop_size →
      island_pop_size ≤ pop.length + fuel →
      worker_fill fill_r input_items num_items island_pop_size fuel t pop
        = .ok pop' →
      pop'.length = island_pop_size := by
  intro fuel
  induction fuel with
  | zero =>
    intro t pop pop' h1 h2 h
    simp only [worker_fill, Except.ok.injEq] at h
    subst h
    omega
  | succ fuel ih =>
    intro t pop pop' h1 h2 h
    simp only [worker_fill] at h
    split at h
    · cases hc : create_random_contract (fill_r t) input_items num_items with
      | error e => rw [hc, except_error_bind] at h; exact absurd h (by simp)
      | ok c =>
        rw [hc, except_ok_bind] at h
        next hsz =>
          exact ih _ _ _ (by simp; omega) (by simp; omega) h
    · next hsz =>
      simp only [Except.ok.injEq] at h
      subst h
      omega

/-- Deduplication never lengthens a list. -/
theorem remove_duplicates_aux_length_le :
    ∀ (l : List (List Entry)) (seen : List (List (String × ℚ))),
      (remove_duplicates_aux l seen).length ≤ l.length := by
  intro l
  induction l with
  | nil => intro seen; simp [remove_duplicates_aux]
  | cons c rest ih =>
    intro seen
    rw [remove_duplicates_aux]
    split
    · exact le_trans (ih seen) (by simp)
    · simp only [List.length_cons]
      exact Nat.succ_le_succ (ih _)

/-- The elite selection returns `min top_n (min |population| |fitness|)`
contracts. -/
theorem length_select_top_contracts (population : List (List Entry))
    (fitness_scores : List ℚ) (top_n : ℕ) :
    (select_top_contracts population fitness_scores top_n).length
      = min top_n (min population.length fitness_scores.length) := by
  unfold select_top_contracts
  rw [List.length_map, List.length_take,
    (List.perm_insertionSort fitness_ge _).length_eq, List.length_zip]

/-- A successful `mapM` over `Except` preserves length, and every output
comes from some input. -/
theorem mapM_ok_length_forall {ε α β : Type _} (f : α → Except ε β) :
    ∀ (l : List α) (out : List β), l.mapM f = .ok out →
      out.length = l.length ∧ ∀ y ∈ out, ∃ x ∈ l, f x = .ok y := by
  intro l
  induction l with
  | nil =>
    intro out h
    rw [List.mapM_nil] at h
    rw [show (pure [] : Except ε (List β)) = Except.ok [] from rfl] at h
    injection h with h
    subst h
    simp
  | cons a l ih =>
    intro out h
    rw [List.mapM_cons] at h
    cases ha : f a with
    | error e => rw [ha, except_error_bind] at h; exact absurd h (by simp)
    | ok b =>
      rw [ha, except_ok_bind] at h
      cases hl : l.mapM f with
      | error e => rw [hl, except_error_bind] at h; exact absurd h (by simp)
      | ok bs =>
        rw [hl, except_ok_bind] at h
        rw [show (pure (b :: bs) : Except ε (List β)) = Except.ok (b :: bs)
          from rfl] at h
        injection h with h
        subst h
        obtain ⟨hlen, hall⟩ := ih bs hl
        refine ⟨by simp [hlen], ?_⟩
        intro y hy
        rcases List.mem_cons.mp hy with rfl | hy'
        · exact ⟨a, List.mem_cons_self _ _, ha⟩
        · obtain ⟨x, hx, hfx⟩ := hall y hy'
          exact ⟨x, List.mem_cons_of_mem _ hx, hfx⟩

/-- Summing the lengths of equally-sized populations. -/
theorem sum_map_length_const (P : ℕ) :
    ∀ (l : List (List (List Entry))), (∀ x ∈ l, x.length = P) →
      (l.map List.length).sum = l.length * P := by
  intro l
  induction l with
  | nil => intro _; simp
  | cons x rest ih =>
    intro h
    simp only [List.map_cons, List.sum_cons, List.length_cons]
    rw [h x (List.mem_cons_self _ _), ih (fun y hy => h y (List.mem_cons_of_mem _ hy))]
    ring

/-- Indexing with a default into a list of bounded-length lists. -/
theorem getD_length_le (P : ℕ) :
    ∀ (ms : List (List (List Entry))) (j : ℕ),
      (∀ m ∈ ms, m.length ≤ P) → (ms.getD j []).length ≤ P := by
  intro ms
  induction ms with
  | nil => intro j _; simp [List.getD]
  | cons m rest ih =>
    intro j h
    cases j with
    | zero => simpa using h m (List.mem_cons_self _ _)
    | succ j =>
      simp only [List.getD_cons_succ]
      exact ih j (fun y hy => h y (List.mem_cons_of_mem _ hy))

/-- A successful island generation returns a population of exactly the
island's size. -/
theorem worker_generation_ok_length (args : IslandArgs) (g : GenRand)
    (population : List (List Entry)) (best : Option (List Entry × ℚ))
    (pop' : List (List Entry)) (best' : Option (List Entry × ℚ))
    (hlen : population.length = args.island_pop_size)
    (h : worker_generation args g population best = .ok (pop', best')) :
    pop'.length = args.island_pop_size := by
  simp only [worker_generation] at h
  cases hf : population.mapM (fun contract =>
      calculate_contract_roi_fast contract args.items args.table) with
  | error e => rw [hf, except_error_bind] at h; exact absurd h (by simp)
  | ok fitness_scores =>
    rw [hf, except_ok_bind] at h
    cases hmax : list_max fitness_scores with
    | error e => rw [hmax, except_error_bind] at h; exact absurd h (by simp)
    | ok best_roi =>
      rw [hmax, except_ok_bind] at h
      have hflen : fitness_scores.length = population.length :=
        (mapM_ok_length_forall _ population fitness_scores hf).1
      cases ht : select_top_contracts population fitness_scores
          args.elite_size with
      | nil =>
        rw [ht] at h
        exact absurd h (by simp [except_error_bind])
      | cons t0 rest_top =>
        rw [ht] at h
        simp only [except_ok_bind, List.tail_cons] at h
        have htoplen : (t0 :: rest_top).length
            = min args.elite_size (min population.length fitness_scores.length) := by
          rw [← ht, length_select_top_contracts]
        cases hkept : sample_wr g.kept_picks
            (max 0 (py_int (((args.elite_size : ℚ) - 1)
              * args.keep_top_percentage))).toNat 0 rest_top with
        | error e => rw [hkept, except_error_bind] at h; exact absurd h (by simp)
        | ok kept_contracts =>
          rw [hkept, except_ok_bind] at h
          obtain ⟨hkeptlen, hkeptle⟩ := sample_wr_ok_length g.kept_picks _ 0
            rest_top kept_contracts hkept
          cases hslots : (List.range (args.island_pop_size
              - (t0 :: kept_contracts).length)).mapM
              (fun j => reproduce_slot args (g.slot j) (t0 :: rest_top)) with
          | error e =>
            rw [hslots, except_error_bind] at h
            exact absurd h (by simp)
          | ok slots =>
            rw [hslots, except_ok_bind] at h
            cases hfill : worker_fill g.fill args.selected_inputs args.num_items
                args.island_pop_size args.island_pop_size 0
                (remove_duplicate_contracts ((t0 :: kept_contracts) ++ slots)) with
            | error e =>
              rw [hfill, except_error_bind] at h
              exact absurd h (by simp)
            | ok popf =>
              rw [hfill, except_ok_bind] at h
              rw [show (pure (popf,
                  update_best best (population.getD
                    (fitness_scores.indexOf best_roi) []) best_roi)
                  : Except PyErr (List (List Entry) × Option (List Entry × ℚ)))
                = Except.ok (popf, update_best best (population.getD
                    (fitness_scores.indexOf best_roi) []) best_roi) from rfl] at h
              injection h with h
              injection h with h1 h2
              subst h1
              have hslotslen : slots.length
                  = args.island_pop_size - (t0 :: kept_contracts).length := by
                have := (mapM_ok_length_forall _ _ _ hslots).1
                rw [this, List.length_range]
              have hnewle : (t0 :: kept_contracts).length ≤ args.island_pop_size := by
                have h1 : (t0 :: kept_contracts).length = 1 + kept_contracts.length := by
                  simp [Nat.add_comm]
                have h2 : 1 + kept_contracts.length ≤ (t0 :: rest_top).length := by
                  simp only [List.length_cons]
                  omega
                have h3 : (t0 :: rest_top).length ≤ population.length := by
                  rw [htoplen, hflen]
                  exact le_trans (min_le_right _ _) (by simp)
                omega
              have hdedup : (remove_duplicate_contracts
                  ((t0 :: kept_contracts) ++ slots)).length
                  ≤ args.island_pop_size := by
                refine le_trans (remove_duplicates_aux_length_le _ []) ?_
                rw [List.length_append, hslotslen]
                omega
              exact worker_fill_ok_length g.fill args.selected_inputs
                args.num_items args.island_pop_size args.island_pop_size 0 _ popf
                hdedup (by omega) hfill

/-- The island worker's generation loop preserves the island population
size. -/
theorem worker_generations_ok_length (args : IslandArgs) (wr : WorkerRand) :
    ∀ (gens gidx : ℕ) (pop : List (List Entry))
      (best : Option (List Entry × ℚ)) (pop' : List (List Entry))
      (best' : Option (List Entry × ℚ)),
      pop.length = args.island_pop_size →
      worker_generations args wr gens gidx pop best = .ok (pop', best') →
      pop'.length = args.island_pop_size := by
  intro gens
  induction gens with
  | zero =>
    intro gidx pop best pop' best' hlen h
    simp only [worker_generations, Except.ok.injEq, Prod.mk.injEq] at h
    rw [← h.1]
    exact hlen
  | succ gens ih =>
    intro gidx pop best pop' best' hlen h
    simp only [worker_generations] at h
    cases hg : worker_generation args (wr.gen gidx) pop best with
    | error e => rw [hg, except_error_bind] at h; exact absurd h (by simp)
    | ok p =>
      obtain ⟨pop1, best1⟩ := p
      rw [hg, except_ok_bind] at h
      exact ih (gidx + 1) pop1 best1 pop' best'
        (worker_generation_ok_length args (wr.gen gidx) pop best pop1 best1
          hlen hg) h

/-- A successful island worker returns at most `island_pop_size` migrants. -/
theorem run_island_worker_ok_migrants (args : IslandArgs) (wr : WorkerRand)
    (res : ℕ × Option (List Entry × ℚ) × List (List Entry))
    (h : run_island_worker args wr = .ok res) :
    res.2.2.length ≤ args.island_pop_size := by
  simp only [run_island_worker] at h
  cases hstart : worker_start_population args wr with
  | error e => rw [hstart, except_error_bind] at h; exact absurd h (by simp)
  | ok pop0 =>
    rw [hstart, except_ok_bind] at h
    have hlen0 : pop0.length = args.island_pop_size := by
      unfold worker_start_population at hstart
      exact initialize_population_ok_length _ _ _ _ _ hstart
    cases hgens : worker_generations args wr args.generations_per_migration 0
        pop0 none with
    | error e => rw [hgens, except_error_bind] at h; exact absurd h (by simp)
    | ok p =>
      obtain ⟨pop1, best⟩ := p
      rw [hgens, except_ok_bind] at h
      have hlen1 : pop1.length = args.island_pop_size :=
        worker_generations_ok_length args wr args.generations_per_migration 0
          pop0 none pop1 best hlen0 hgens
      cases hfinal : pop1.mapM (fun contract =>
          calculate_contract_roi_fast contract args.items args.table) with
      | error e => rw [hfinal, except_error_bind] at h; exact absurd h (by simp)
      | ok final_scores =>
        rw [hfinal, except_ok_bind] at h
        rw [show (pure (args.island_id, best,
            select_top_contracts pop1 final_scores (min 5 args.elite_size))
            : Except PyErr (ℕ × Option (List Entry × ℚ) × List (List Entry)))
          = Except.ok (args.island_id, best,
            select_top_contracts pop1 final_scores (min 5 args.elite_size))
          from rfl] at h
        injection h with h
        rw [← h]
        simp only [length_select_top_contracts]
        exact le_trans (min_le_right _ _) (by rw [hlen1]; simp)

/-- C8: for every run of the island engine, after every epoch — the stored
island populations are created with `population_per_island` individuals each
and every migration step replaces each island by
`(population_per_island − |migrants|)` fresh individuals plus the migrants —
the total number of stored individuals is
`num_islands × population_per_island`. -/
theorem C8_island_total_population (cfg : IslandConfig) (r : EngineRand) :
    ∀ (e : ℕ) (s : EngineState), run_island_epochs cfg r e = .ok s →
      s.island_populations.length = cfg.num_islands
      ∧ (s.island_populations.map List.length).sum
          = cfg.num_islands * cfg.population_per_island := by
  intro e
  induction e with
  | zero =>
    intro s h
    simp only [run_island_epochs, engine_init] at h
    cases hinit : (List.range cfg.num_islands).mapM (fun i =>
        initialize_population (r.init i) cfg.selected_inputs cfg.num_items
          cfg.population_per_island) with
    | error e => rw [hinit, except_error_bind] at h; exact absurd h (by simp)
    | ok pops =>
      rw [hinit, except_ok_bind] at h
      rw [show (pure (⟨pops, none⟩ : EngineState) : Except PyErr EngineState)
        = Except.ok ⟨pops, none⟩ from rfl] at h
      injection h with h
      subst h
      obtain ⟨hplen, hall⟩ := mapM_ok_length_forall _ _ _ hinit
      have hlens : ∀ x ∈ pops, x.length = cfg.population_per_island := by
        intro x hx
        obtain ⟨i, _, hfi⟩ := hall x hx
        exact initialize_population_ok_length _ _ _ _ _ hfi
      refine ⟨by rw [hplen, List.length_range], ?_⟩
      rw [sum_map_length_const _ pops hlens, hplen, List.length_range]
  | succ e ih =>
    intro s h
    simp only [run_island_epochs] at h
    cases hs : run_island_epochs cfg r e with
    | error e1 => rw [hs, except_error_bind] at h; exact absurd h (by simp)
    | ok s' =>
      rw [hs, except_ok_bind] at h
      obtain ⟨ihlen, ihsum⟩ := ih s' hs
      by_cases he : e < num_migrations cfg
      · rw [if_pos he] at h
        simp only [engine_epoch] at h
        cases hres : (List.range cfg.num_islands).mapM (fun i =>
            run_island_worker (make_island_args cfg i) (r.worker e i)) with
        | error e1 => rw [hres, except_error_bind] at h; exact absurd h (by simp)
        | ok results =>
          rw [hres, except_ok_bind] at h
          obtain ⟨hreslen, hresall⟩ := mapM_ok_length_forall _ _ _ hres
          set migs := results.map (fun res => res.2.2.take cfg.migration_size)
            with hmigsdef
          set b' := results.foldl (fun b res =>
            match res.2.1 with
            | none => b
            | some (c, roi) => update_best b c roi) s'.best with hbdef
          have hmig : ∀ mm ∈ migs, mm.length ≤ cfg.population_per_island := by
            intro mm hmm
            rw [hmigsdef] at hmm
            obtain ⟨res, hresmem, hrfl⟩ := List.mem_map.mp hmm
            obtain ⟨i, _, hwork⟩ := hresall res hresmem
            rw [← hrfl, List.length_take]
            exact le_trans (min_le_right _ _)
              (run_island_worker_ok_migrants (make_island_args cfg i)
                (r.worker e i) res hwork)
          split at h
          · cases hpops : (List.range cfg.num_islands).mapM (fun i =>
                (do
                  let new_pop ← initialize_population (r.mig_init e i)
                    cfg.selected_inputs cfg.num_items
                    (cfg.population_per_island
                      - (migs.getD (prev_island i cfg.num_islands) []).length)
                  pure (new_pop ++ migs.getD (prev_island i cfg.num_islands) [])
                  : Except PyErr (List (List Entry)))) with
            | error e1 =>
              rw [hpops, except_error_bind] at h
              exact absurd h (by simp)
            | ok pops' =>
              rw [hpops, except_ok_bind] at h
              rw [show (pure (⟨pops', b'⟩ : EngineState)
                  : Except PyErr EngineState)
                = Except.ok ⟨pops', b'⟩ from rfl] at h
              injection h with h
              subst h
              obtain ⟨hplen, hall⟩ := mapM_ok_length_forall _ _ _ hpops
              have hlens : ∀ y ∈ pops', y.length = cfg.population_per_island := by
                intro y hy
                obtain ⟨i, _, hfi⟩ := hall y hy
                cases hinit : initialize_population (r.mig_init e i)
                    cfg.selected_inputs cfg.num_items
                    (cfg.population_per_island
                      - (migs.getD (prev_island i cfg.num_islands) []).length) with
                | error e2 =>
                  rw [hinit, except_error_bind] at hfi
                  exact absurd hfi (by simp)
                | ok np =>
                  rw [hinit, except_ok_bind] at hfi
                  rw [show (pure (np ++ migs.getD (prev_island i cfg.num_islands) [])
                      : Except PyErr (List (List Entry)))
                    = Except.ok (np ++ migs.getD (prev_island i cfg.num_islands) [])
                    from rfl] at hfi
                  injection hfi with hfi
                  rw [← hfi, List.length_append]
                  have hnp := initialize_population_ok_length _ _ _ _ _ hinit
                  have hmle := getD_length_le cfg.population_per_island migs
                    (prev_island i cfg.num_islands) hmig
                  omega
              refine ⟨by rw [hplen, List.length_range], ?_⟩
              rw [sum_map_length_const _ pops' hlens, hplen, List.length_range]
          · rw [show (pure (⟨s'.island_populations, b'⟩ : EngineState)
                : Except PyErr EngineState)
              = Except.ok ⟨s'.island_populations, b'⟩ from rfl] at h
            injection h with h
            subst h
            exact ⟨ihlen, ihsum⟩
      · rw [if_neg he] at h
        rw [show (pure s' : Except PyErr EngineState) = Except.ok s' from rfl] at h
        injection h with h
        subst h
        exact ⟨ihlen, ihsum⟩

/-! ### A concrete island-engine run (used for C2 and the C8 witness) -/

/-- Four 1-entry pool items for a tiny island run. -/
def isl_e1 : Entry := ⟨"a1", 1 / 2, 1⟩

def isl_e2 : Entry := ⟨"a2", 1 / 2, 1⟩

def isl_e3 : Entry := ⟨"a3", 1 / 2, 1⟩

def isl_e4 : Entry := ⟨"a4", 1 / 2, 1⟩

/-- The candidate pool of the tiny island run. -/
def isl_pool : List Entry := [isl_e1, isl_e2, isl_e3, isl_e4]

/-- A catalog where every id resolves to a liquid item in source `"s"`. -/
def isl_items : Items :=
  fun id => some ⟨id, 1, 100, "X", false, 0, 1, 0, 1, ["s"]⟩

/-- A table answering every key with mean price 2. -/
def isl_table : Table := fun _ _ _ _ => some ⟨2, []⟩

/-- Mutation oracle (never exercised: every slot draws the fresh branch). -/
def isl_mut_rand : MutateRand :=
  ⟨1, 0, fun _ => 0, fun _ => 1, fun _ => 0, fun _ => 0, 1, 0, 0⟩

/-- Slot oracle: `rv = 0 < 0.4` always takes the fresh-contract branch,
drawing pool index 2. -/
def isl_slot_rand : SlotRand :=
  { rv := 0, fresh := fun _ => 2, parent1 := 0, parent2 := 0, cross_n1 := 0,
    cross_picks1 := fun _ => 0, cross_picks2 := fun _ => 0, mut_parent := 0,
    mut_rand := isl_mut_rand }

/-- Generation oracle for the tiny run. -/
def isl_gen_rand : GenRand :=
  { kept_picks := fun _ => 0, slot := fun _ => isl_slot_rand,
    fill := fun _ _ => 0 }

/-- Worker oracle: the `t`-th initialization attempt draws pool index `t`. -/
def isl_worker_rand : WorkerRand :=
  { init := fun t _ => t, gen := fun _ => isl_gen_rand }

/-- Engine oracle: island initializations draw indices 0, 1, …; every worker
uses `isl_worker_rand`; migration-time fresh samples draw pool index 3. -/
def isl_engine_rand : EngineRand :=
  { init := fun _ => fun t _ => t, worker := fun _ _ => isl_worker_rand,
    mig_init := fun _ _ => fun _ _ => 3 }

/-- Tiny island configuration: 2 islands of 2 one-entry contracts, 2 epochs
of 1 generation each, 1 migrant. -/
def isl_cfg : IslandConfig :=
  { selected_inputs := isl_pool, items := isl_items, table := isl_table,
    num_items := 1, num_islands := 2, population_per_island := 2,
    total_generations := 2, migration_interval := 1, migration_size := 1,
    elite_size := 1, keep_top_percentage := 0 }

unseal Rat.add Rat.mul Rat.sub Rat.inv in
/-- C2 (code bug): in the island engine the population an island evolves
during epoch 2 is NOT the population produced by epoch 1's migration step.
At this concrete run, epoch 1's migration stores `[[a4], [a1]]` (fresh sample
plus the migrant `[a1]` from the ring neighbour) for island 0, but the epoch-2
worker — whose argument tuple carries no population — evolves the freshly
initialized `[[a1], [a2]]` instead: the migrants never participate in any
evolution.  The last conjunct shows `run_island_worker` is, by construction,
a function of the static arguments and the worker's own oracle alone,
starting from `worker_start_population`. -/
theorem C2_migrants_not_evolved :
    (run_island_epochs isl_cfg isl_engine_rand 1).map
        (fun s => s.island_populations.getD 0 [])
      = .ok [[isl_e4], [isl_e1]]
    ∧ worker_start_population (make_island_args isl_cfg 0)
        (isl_engine_rand.worker 1 0)
      = .ok [[isl_e1], [isl_e2]]
    ∧ ([[isl_e1], [isl_e2]] : List (List Entry)) ≠ [[isl_e4], [isl_e1]]
    ∧ (∀ (args : IslandArgs) (wr : WorkerRand),
        run_island_worker args wr =
          (do
            let population ← worker_start_population args wr
            let (population', best) ← worker_generations args wr
              args.generations_per_migration 0 population none
            let final_scores ← population'.mapM fun contract =>
              calculate_contract_roi_fast contract args.items args.table
            pure (args.island_id, best,
              select_top_contracts population' final_scores
                (min 5 args.elite_size)))) :=
  ⟨by decide, by decide, by decide, fun args wr => rfl⟩

unseal Rat.add Rat.mul Rat.sub Rat.inv in
/-- Witness for C8: the tiny concrete island run succeeds and conserves
`2 × 2 = 4` stored individuals across both epochs' states. -/
theorem C8_island_total_population_witness :
    ∃ s, run_island_epochs isl_cfg isl_engine_rand 2 = .ok s
      ∧ s.island_populations.length = isl_cfg.num_islands
      ∧ (s.island_populations.map List.length).sum
          = isl_cfg.num_islands * isl_cfg.population_per_island := by
  have h : run_island_epochs isl_cfg isl_engine_rand 2
      = .ok ⟨[[[isl_e4], [isl_e1]], [[isl_e4], [isl_e1]]],
             some ([isl_e1], 100)⟩ := by decide
  exact ⟨_, h,
    (C8_island_total_population isl_cfg isl_engine_rand 2 _ h).1,
    (C8_island_total_population isl_cfg isl_engine_rand 2 _ h).2⟩

end STT
